import Mathlib

/-!
A shallow embedding of the queue subsystem of `backend/services/queue_service.py`
(token-bucket rate limiter, circuit breaker, retry executor, batch job tracker
and batch orchestrator), together with theorems settling the specification
claims about it.

Modelling conventions:
* Python floats (clock readings, token balances, delays) are embedded as `ℚ`.
* `time.monotonic()` / `asyncio.get_event_loop().time()` readings are passed in
  explicitly as `now` arguments; sleeping advances the model clock.
* The retry jitter `event_loop.time() % 1` is modelled as an oracle
  `jitter : ℕ → ℚ` indexed by attempt, constrained to `[0, 1)` where a claim
  needs it.
* `async` locks serialize each method body; methods are embedded as pure
  state-transition functions, and the cooperative interleaving of a batch run
  is modelled as the sequential order in which outcomes are recorded.
* Python truthiness tests (`if self.last_failure_time`, `if error`,
  `if result`, `filename or "unknown"`) are embedded faithfully: `None` and
  the falsy values (`0.0`, `""`, empty payload) take the false branch.
-/

namespace BiodataQueue

/-! ## Token bucket (`TokenBucket`, queue_service.py lines 60-95) -/

/-- State of `TokenBucket`: `rate` tokens per second, burst `capacity`,
current `tokens` balance, and `last_update` monotonic-clock reading. -/
structure TokenBucket where
  rate : ℚ
  capacity : ℚ
  tokens : ℚ
  lastUpdate : ℚ
  deriving Repr, DecidableEq

namespace TokenBucket

/-- `TokenBucket.__init__`: the bucket starts full (`tokens = capacity`). -/
def init (rate capacity now : ℚ) : TokenBucket :=
  { rate := rate, capacity := capacity, tokens := capacity, lastUpdate := now }

/-- `TokenBucket.acquire(tokens=n)` at clock reading `now`: lazily refill from
elapsed time, cap at capacity; if the balance covers the request deduct it and
return wait `0`, otherwise leave the refilled balance untouched and return
`deficit / rate`. Returns the updated bucket and the wait time. -/
def acquire (b : TokenBucket) (n : ℕ) (now : ℚ) : TokenBucket × ℚ :=
  let elapsed := now - b.lastUpdate
  let toks := min b.capacity (b.tokens + elapsed * b.rate)
  let b' := { b with tokens := toks, lastUpdate := now }
  if (n : ℚ) ≤ toks then
    ({ b' with tokens := toks - (n : ℚ) }, 0)
  else
    (b', ((n : ℚ) - toks) / b.rate)

/-- Run a sequence of acquisitions; each step supplies the request size and the
non-negative time elapsed since the previous call. -/
def runAcquires (b : TokenBucket) : List (ℕ × ℚ) → TokenBucket
  | [] => b
  | (n, elapsed) :: rest => runAcquires (acquire b n (b.lastUpdate + elapsed)).1 rest

/-- The balance invariant of the bucket. -/
def Inv (b : TokenBucket) : Prop := 0 ≤ b.tokens ∧ b.tokens ≤ b.capacity

instance (b : TokenBucket) : Decidable (Inv b) := by unfold Inv; infer_instance

end TokenBucket

/-! ## Circuit breaker (`CircuitBreaker`, queue_service.py lines 98-161) -/

/-- The three circuit-breaker states (`"closed"`, `"open"`, `"half-open"`). -/
inductive CBState where
  | closed
  | opened
  | halfOpen
  deriving Repr, DecidableEq

/-- State of `CircuitBreaker`: configuration plus the mutable fields
`failures`, `last_failure_time`, `state` and `half_open_successes`. -/
structure CircuitBreaker where
  failureThreshold : ℕ
  recoveryTimeout : ℚ
  halfOpenMax : ℕ
  failures : ℕ
  lastFailureTime : Option ℚ
  state : CBState
  halfOpenSuccesses : ℕ
  deriving Repr, DecidableEq

namespace CircuitBreaker

/-- `CircuitBreaker.__init__`. -/
def init (failureThreshold : ℕ) (recoveryTimeout : ℚ) (halfOpenMax : ℕ) :
    CircuitBreaker :=
  { failureThreshold := failureThreshold, recoveryTimeout := recoveryTimeout,
    halfOpenMax := halfOpenMax, failures := 0, lastFailureTime := none,
    state := .closed, halfOpenSuccesses := 0 }

/-- `CircuitBreaker.can_execute` at clock reading `now`. Returns the verdict
and the (possibly updated) breaker. In the open state the Python guard is
`if self.last_failure_time and now - self.last_failure_time >= timeout`, so a
recorded time must be truthy (non-`None` and nonzero) to permit recovery. -/
def canExecute (cb : CircuitBreaker) (now : ℚ) : Bool × CircuitBreaker :=
  match cb.state with
  | .closed => (true, cb)
  | .opened =>
    match cb.lastFailureTime with
    | some t =>
      if t ≠ 0 ∧ cb.recoveryTimeout ≤ now - t then
        (true, { cb with state := .halfOpen, halfOpenSuccesses := 0 })
      else
        (false, cb)
    | none => (false, cb)
  | .halfOpen => (decide (cb.halfOpenSuccesses < cb.halfOpenMax), cb)

/-- `CircuitBreaker.record_success`. -/
def recordSuccess (cb : CircuitBreaker) : CircuitBreaker :=
  if cb.state = .halfOpen then
    let s := cb.halfOpenSuccesses + 1
    if cb.halfOpenMax ≤ s then
      { cb with halfOpenSuccesses := s, state := .closed, failures := 0 }
    else
      { cb with halfOpenSuccesses := s }
  else
    { cb with failures := 0 }

/-- `CircuitBreaker.record_failure` at clock reading `now`. -/
def recordFailure (cb : CircuitBreaker) (now : ℚ) : CircuitBreaker :=
  let cb' := { cb with failures := cb.failures + 1, lastFailureTime := some now }
  if cb.state = .halfOpen then
    { cb' with state := .opened }
  else if cb.failureThreshold ≤ cb'.failures then
    { cb' with state := .opened }
  else
    cb'

/-- Record one failure per clock reading in the given list, in order. -/
def recordFailures (cb : CircuitBreaker) : List ℚ → CircuitBreaker
  | [] => cb
  | t :: ts => recordFailures (recordFailure cb t) ts

/-- Iterate `record_success`. -/
def recordSuccesses (cb : CircuitBreaker) : ℕ → CircuitBreaker
  | 0 => cb
  | k + 1 => recordSuccesses (recordSuccess cb) k

end CircuitBreaker

/-! ## Batch job tracker (`BatchStatus`, `BatchJob`, queue_service.py
lines 18-57 and 296-339) -/

/-- `BatchStatus` values. -/
inductive BatchStatus where
  | pending
  | processing
  | completed
  | partialDone
  | failed
  deriving Repr, DecidableEq

/-- The `.value` string of each status (`"partial"` for `partialDone`). -/
def BatchStatus.value : BatchStatus → String
  | .pending => "pending"
  | .processing => "processing"
  | .completed => "completed"
  | .partialDone => "partial"
  | .failed => "failed"

/-- The terminal statuses: completed, partial, failed. -/
def BatchStatus.isTerminal : BatchStatus → Bool
  | .completed => true
  | .partialDone => true
  | .failed => true
  | _ => false

/-- One entry of `BatchJob.errors`: `{"filename": ..., "error": ...}`. -/
structure ErrorRecord where
  filename : String
  error : String
  deriving Repr, DecidableEq

/-- `BatchJob` dataclass.  The opaque uuid `id` is omitted; success payloads
(`results` dict entries) are modelled as opaque naturals. -/
structure BatchJob where
  total : ℕ
  processed : ℕ
  successful : ℕ
  failed : ℕ
  status : BatchStatus
  createdAt : ℚ
  completedAt : Option ℚ
  errors : List ErrorRecord
  results : List ℕ
  deriving Repr, DecidableEq

/-- Python string slicing `s[:n]`: the first `n` characters. -/
def strTake (s : String) (n : ℕ) : String := String.mk (s.data.take n)

/-- Python list slicing `l[-n:]`: the last `n` elements. -/
def lastN {α : Type} (n : ℕ) (l : List α) : List α := l.drop (l.length - n)

/-- Python `round(q)` (banker's rounding: ties go to the even integer). -/
def pyRoundInt (q : ℚ) : ℤ :=
  if Int.fract q = 1/2 then (if ⌊q⌋ % 2 = 0 then ⌊q⌋ else ⌊q⌋ + 1) else round q

/-- Python `round(q, 1)`. -/
def pyRound1 (q : ℚ) : ℚ := (pyRoundInt (q * 10) : ℚ) / 10

namespace BatchJob

/-- `BatchJob.progress_percent`: `processed / total * 100` guarded by
`total > 0`, else `0`. -/
def progressPercent (j : BatchJob) : ℚ :=
  if 0 < j.total then (j.processed : ℚ) / (j.total : ℚ) * 100 else 0

/-- The fields of `BatchJob.to_dict` (uuid `id` omitted; timestamps kept as
clock readings rather than ISO strings). -/
structure Dict where
  total : ℕ
  processed : ℕ
  successful : ℕ
  failed : ℕ
  progressPercent : ℚ
  status : String
  createdAt : ℚ
  completedAt : Option ℚ
  errors : List ErrorRecord
  deriving Repr, DecidableEq

/-- `BatchJob.to_dict`: rounds the progress to one decimal and exposes only
the last 10 error records. -/
def toDict (j : BatchJob) : Dict :=
  { total := j.total, processed := j.processed, successful := j.successful,
    failed := j.failed, progressPercent := pyRound1 (progressPercent j),
    status := j.status.value, createdAt := j.createdAt,
    completedAt := j.completedAt, errors := lastN 10 j.errors }

end BatchJob

/-- `QueueService.create_batch_job` at clock reading `now`: a fresh job in
the processing state with all counters zero. -/
def createBatchJob (total : ℕ) (now : ℚ) : BatchJob :=
  { total := total, processed := 0, successful := 0, failed := 0,
    status := .processing, createdAt := now, completedAt := none,
    errors := [], results := [] }

/-- Python `filename or "unknown"`: `None` and the empty string are falsy. -/
def orUnknown (filename : Option String) : String :=
  match filename with
  | some f => if f = "" then "unknown" else f
  | none => "unknown"

/-- `QueueService.update_batch_progress` at clock reading `now`: increment
`processed` and the matching outcome counter, append the payload to `results`
(when the payload is truthy) or a truncated error record to `errors` (when
the error message is truthy), and on `processed ≥ total` stamp `completed_at`
and classify the terminal status. -/
def updateBatchProgress (j : BatchJob) (success : Bool) (result : Option ℕ)
    (error : Option String) (filename : Option String) (now : ℚ) : BatchJob :=
  let j1 :=
    if success then
      { j with processed := j.processed + 1, successful := j.successful + 1,
               results := match result with
                 | some r => j.results ++ [r]
                 | none => j.results }
    else
      { j with processed := j.processed + 1, failed := j.failed + 1,
               errors := match error with
                 | some e =>
                   if e = "" then j.errors
                   else j.errors ++
                     [{ filename := orUnknown filename,
                        error := strTake e 200 }]
                 | none => j.errors }
  if j1.total ≤ j1.processed then
    { j1 with completedAt := some now,
              status := if j1.failed = 0 then .completed
                else if j1.successful = 0 then .failed
                else .partialDone }
  else
    j1

/-- The arguments of one `update_batch_progress` call. -/
structure UpdateCall where
  success : Bool
  result : Option ℕ
  error : Option String
  filename : Option String
  now : ℚ
  deriving Repr, DecidableEq

/-- Apply a sequence of `update_batch_progress` calls in order. -/
def applyUpdates (j : BatchJob) : List UpdateCall → BatchJob
  | [] => j
  | c :: cs =>
    applyUpdates (updateBatchProgress j c.success c.result c.error c.filename c.now) cs

/-! ## Retry executor (`QueueService._is_retryable_error` and
`QueueService._execute_with_retry`, queue_service.py lines 207-265) -/

/-- One task invocation's outcome: a success payload (opaque, modelled as a
natural) or a raised exception's message. -/
inductive Outcome where
  | ok (value : ℕ)
  | err (msg : String)
  deriving Repr, DecidableEq

/-- The message of the exception raised inside the try block when
`can_execute` returns false. -/
def circuitOpenMsg : String :=
  "Circuit breaker is open - service temporarily unavailable"

/-- The transient-error patterns of `_is_retryable_error` (already
lowercase in the source). -/
def retryablePatterns : List String :=
  ["429", "503", "502", "resource_exhausted", "quota", "rate limit",
   "too many requests", "temporarily unavailable", "timeout"]

/-- `listContains hay pat` holds when `pat` occurs contiguously in `hay`. -/
def listContains : List Char → List Char → Bool
  | [], pat => pat.isPrefixOf ([] : List Char)
  | c :: rest, pat => pat.isPrefixOf (c :: rest) || listContains rest pat

/-- Python `pat in hay`: substring containment. -/
def containsSub (hay pat : String) : Bool :=
  listContains hay.data pat.data

/-- Python `str.lower()`, character by character. -/
def strToLower (s : String) : String :=
  String.mk (s.data.map Char.toLower)

/-- `QueueService._is_retryable_error`: lowercase the message and look for
any known transient pattern. -/
def isRetryableError (msg : String) : Bool :=
  retryablePatterns.any (fun pat => containsSub (strToLower msg) pat)

/-- The executor-visible state threaded through `_execute_with_retry`: the
shared circuit breaker, the clock (advanced by backoff sleeps), the number
of task invocations so far and the backoff delays slept so far. -/
structure ExecState where
  cb : CircuitBreaker
  now : ℚ
  invocations : ℕ
  delays : List ℚ
  deriving Repr, DecidableEq

/-- The backoff delay of a retry:
`min(base_delay * 2^attempt + jitter, max_delay)`, where `jitter` stands for
`asyncio.get_event_loop().time() % 1 ∈ [0, 1)`. -/
def backoffDelay (baseDelay maxDelay : ℚ) (attempt : ℕ) (jitter : ℚ) : ℚ :=
  min (baseDelay * 2 ^ attempt + jitter) maxDelay

/-- The `except` branch of one attempt of `_execute_with_retry`: record the
failure on the breaker, re-raise a non-retryable error, re-raise on the last
attempt, otherwise sleep
`min(base_delay * 2^attempt + jitter, max_delay)` and continue (`.inl` is
the continuation state for the next attempt). -/
def failAction (maxRetries : ℕ) (baseDelay maxDelay : ℚ) (jitter : ℕ → ℚ)
    (attempt : ℕ) (msg : String) (st : ExecState) :
    ExecState ⊕ (ExecState × Except String ℕ) :=
  let st1 := { st with cb := st.cb.recordFailure st.now }
  if isRetryableError msg = false then
    Sum.inr (st1, Except.error msg)
  else if maxRetries ≤ attempt then
    Sum.inr (st1, Except.error msg)
  else
    let d := backoffDelay baseDelay maxDelay attempt (jitter attempt)
    Sum.inl { st1 with now := st1.now + d, delays := st1.delays ++ [d] }

/-- One iteration of the attempt loop of `_execute_with_retry`: check the
breaker (the rejection exception is raised inside the try block, so it flows
into the same `except` handler as a task failure), otherwise invoke the task
(indexed by how many invocations happened before) and record the outcome. -/
def attemptStep (maxRetries : ℕ) (baseDelay maxDelay : ℚ) (task : ℕ → Outcome)
    (jitter : ℕ → ℚ) (attempt : ℕ) (st : ExecState) :
    ExecState ⊕ (ExecState × Except String ℕ) :=
  let ce := st.cb.canExecute st.now
  let st1 := { st with cb := ce.2 }
  if ce.1 then
    match task st1.invocations with
    | .ok v =>
      Sum.inr ({ st1 with invocations := st1.invocations + 1,
                          cb := st1.cb.recordSuccess }, Except.ok v)
    | .err m =>
      failAction maxRetries baseDelay maxDelay jitter attempt m
        { st1 with invocations := st1.invocations + 1 }
  else
    failAction maxRetries baseDelay maxDelay jitter attempt circuitOpenMsg st1

/-- The attempt loop of `_execute_with_retry`, with `fuel` the number of
remaining loop iterations (`fuel = maxRetries + 1 - attempt`; the `fuel = 0`
case models the unreachable `raise last_error` after the loop). -/
def retryLoop (maxRetries : ℕ) (baseDelay maxDelay : ℚ) (task : ℕ → Outcome)
    (jitter : ℕ → ℚ) : ℕ → ℕ → ExecState → ExecState × Except String ℕ
  | _, 0, st => (st, Except.error "")
  | attempt, fuel + 1, st =>
    match attemptStep maxRetries baseDelay maxDelay task jitter attempt st with
    | Sum.inr r => r
    | Sum.inl st2 =>
      retryLoop maxRetries baseDelay maxDelay task jitter (attempt + 1) fuel st2

/-- `QueueService._execute_with_retry`: up to `max_retries + 1` attempts
starting at attempt 0. -/
def executeWithRetry (maxRetries : ℕ) (baseDelay maxDelay : ℚ)
    (task : ℕ → Outcome) (jitter : ℕ → ℚ) (st : ExecState) :
    ExecState × Except String ℕ :=
  retryLoop maxRetries baseDelay maxDelay task jitter 0 (maxRetries + 1) st

/-! ## Batch orchestrator (`QueueService.process_with_limit` and
`QueueService.process_batch`, queue_service.py lines 267-292 and 341-395) -/

/-- The shared service state threaded through a batch run: the rate-limiter
bucket, the circuit breaker, and the clock.  The concurrency semaphore only
bounds parallelism; in this sequential model of the cooperative scheduler it
imposes no further constraint and is omitted. -/
structure QueueState where
  bucket : TokenBucket
  cb : CircuitBreaker
  now : ℚ
  deriving Repr, DecidableEq

/-- The queue service built by `create_queue_service` from the deployed
settings: 50 requests per minute (rate `50/60` tokens per second), burst
capacity 10, and a breaker with failure threshold 10, recovery timeout 60
seconds and half-open budget 3. -/
def initialQueueState (now : ℚ) : QueueState :=
  { bucket := TokenBucket.init (50 / 60) 10 now,
    cb := CircuitBreaker.init 10 60 3,
    now := now }

/-- `QueueService.process_with_limit`: acquire one rate-limit token (sleeping
for the returned wait time when it is positive), then run the task through
`_execute_with_retry`. -/
def processWithLimit (maxRetries : ℕ) (baseDelay maxDelay : ℚ)
    (task : ℕ → Outcome) (jitter : ℕ → ℚ) (qs : QueueState) :
    QueueState × Except String ℕ :=
  let a := qs.bucket.acquire 1 qs.now
  let now1 := if 0 < a.2 then qs.now + a.2 else qs.now
  let r := executeWithRetry maxRetries baseDelay maxDelay task jitter
    { cb := qs.cb, now := now1, invocations := 0, delays := [] }
  ({ bucket := a.1, cb := r.1.cb, now := r.1.now }, r.2)

/-- The inner `process_item` closure of `process_batch`: run one item through
`process_with_limit`; on success record the payload, on any exception record
the error message with the item's label — the exception never escapes. -/
def processItem (maxRetries : ℕ) (baseDelay maxDelay : ℚ) (jitter : ℕ → ℚ)
    (proc : ℕ → Outcome) (s : QueueState × BatchJob) (item : ℕ) :
    QueueState × BatchJob :=
  match processWithLimit maxRetries baseDelay maxDelay (fun _ => proc item)
      jitter s.1 with
  | (qs', Except.ok v) =>
    (qs', updateBatchProgress s.2 true (some v) none (some (toString item))
      qs'.now)
  | (qs', Except.error m) =>
    (qs', updateBatchProgress s.2 false none (some m) (some (toString item))
      qs'.now)

/-- The chunk loop of `process_batch`: process one chunk of `chunkSize`
items, then sleep 0.1 s when more chunks remain.  `fuel` bounds the number
of chunks; `items.length` suffices for any positive `chunkSize` (Python's
`range(0, len, chunk_size)` raises for `chunk_size = 0`). -/
def processBatchLoop (maxRetries : ℕ) (baseDelay maxDelay : ℚ)
    (jitter : ℕ → ℚ) (chunkSize : ℕ) (proc : ℕ → Outcome) :
    ℕ → QueueState → BatchJob → List ℕ → QueueState × BatchJob
  | 0, qs, job, _ => (qs, job)
  | _ + 1, qs, job, [] => (qs, job)
  | fuel + 1, qs, job, item :: items =>
    let chunk := (item :: items).take chunkSize
    let rest := (item :: items).drop chunkSize
    let s := chunk.foldl
      (processItem maxRetries baseDelay maxDelay jitter proc) (qs, job)
    let qs' := if rest.isEmpty then s.1
      else { s.1 with now := s.1.now + 1/10 }
    processBatchLoop maxRetries baseDelay maxDelay jitter chunkSize proc fuel
      qs' s.2 rest

/-- `QueueService.process_batch` with no pre-existing job: create the job
(status processing, `total = len(items)`), then process the items chunk by
chunk. -/
def processBatch (maxRetries : ℕ) (baseDelay maxDelay : ℚ) (jitter : ℕ → ℚ)
    (chunkSize : ℕ) (qs : QueueState) (items : List ℕ) (proc : ℕ → Outcome) :
    QueueState × BatchJob :=
  processBatchLoop maxRetries baseDelay maxDelay jitter chunkSize proc
    items.length qs (createBatchJob items.length qs.now) items

/-- Whether an outcome is a success. -/
def isOk : Outcome → Bool
  | .ok _ => true
  | .err _ => false

/-- The success payload of an outcome, when present. -/
def payload : Outcome → Option ℕ
  | .ok v => some v
  | .err _ => none

/-- The breaker's consecutive-failure count after a run of recorded
outcomes: a success resets it, a failure increments it. -/
def failuresAfter (f : ℕ) : List Outcome → ℕ
  | [] => f
  | .ok _ :: rest => failuresAfter 0 rest
  | .err _ :: rest => failuresAfter (f + 1) rest

/-- `safeRun th f outcomes` holds when recording the outcomes in order never
reaches the failure threshold `th` starting from `f` consecutive failures,
so a breaker that starts closed stays closed throughout. -/
def safeRun (th : ℕ) (f : ℕ) : List Outcome → Bool
  | [] => true
  | .ok _ :: rest => safeRun th 0 rest
  | .err _ :: rest => decide (f + 1 < th) && safeRun th (f + 1) rest

/-- An item whose task either succeeds or raises a fatal (non-retryable)
error — the shape of task used by the failure-isolation scenario. -/
def FatalOrOk (proc : ℕ → Outcome) (i : ℕ) : Prop :=
  match proc i with
  | .ok _ => True
  | .err m => isRetryableError m = false

instance (proc : ℕ → Outcome) (i : ℕ) : Decidable (FatalOrOk proc i) := by
  unfold FatalOrOk
  split
  · exact inferInstanceAs (Decidable True)
  · exact inferInstanceAs (Decidable _)

/-- The failure-isolation scenario task: every third item (index ≡ 2 mod 3)
raises a fatal "invalid input" error, every other item succeeds with its own
index as payload. -/
def everyThirdFatal (i : ℕ) : Outcome :=
  if i % 3 = 2 then Outcome.err "invalid input" else Outcome.ok i

/-- The failure-isolation batch run: twelve items through `processBatch`
with the deployed retry settings (max_retries 3, base delay 2 s, max delay
60 s) and the default chunk size 10, starting from a fresh service state. -/
def isolationRun : QueueState × BatchJob :=
  processBatch 3 2 60 (fun _ => 0) 10 (initialQueueState 0) (List.range 12)
    everyThirdFatal

/-- The clock after `process_with_limit`'s rate-limit admission: advanced by
the returned wait time when it is positive. -/
def pwlNow (qs : QueueState) : ℚ :=
  if 0 < (qs.bucket.acquire 1 qs.now).2 then
    qs.now + (qs.bucket.acquire 1 qs.now).2
  else qs.now

/-! ## Theorems -/

namespace TokenBucket

theorem acquire_rate_capacity (b : TokenBucket) (n : ℕ) (now : ℚ) :
    (acquire b n now).1.rate = b.rate ∧ (acquire b n now).1.capacity = b.capacity := by
  unfold acquire
  dsimp only
  split <;> exact ⟨rfl, rfl⟩

theorem acquire_inv (b : TokenBucket) (n : ℕ) (now : ℚ)
    (hrate : 0 ≤ b.rate) (hinv : Inv b) (hnow : b.lastUpdate ≤ now) :
    Inv (acquire b n now).1 := by
  obtain ⟨h0, hc⟩ := hinv
  have hcap : 0 ≤ b.capacity := le_trans h0 hc
  have hadd : 0 ≤ b.tokens + (now - b.lastUpdate) * b.rate := by
    have : 0 ≤ (now - b.lastUpdate) * b.rate :=
      mul_nonneg (by linarith) hrate
    linarith
  have hmin : min b.capacity (b.tokens + (now - b.lastUpdate) * b.rate) ≤ b.capacity :=
    min_le_left _ _
  have hmin0 : 0 ≤ min b.capacity (b.tokens + (now - b.lastUpdate) * b.rate) :=
    le_min hcap hadd
  have hn : (0 : ℚ) ≤ (n : ℚ) := Nat.cast_nonneg n
  unfold acquire Inv
  dsimp only
  split
  · rename_i hle
    constructor
    · dsimp only; linarith
    · dsimp only; linarith
  · exact ⟨hmin0, hmin⟩

theorem runAcquires_inv (steps : List (ℕ × ℚ)) (b : TokenBucket)
    (hrate : 0 ≤ b.rate) (hinv : Inv b)
    (hsteps : ∀ s ∈ steps, 0 ≤ s.2) :
    Inv (runAcquires b steps) := by
  induction steps generalizing b with
  | nil => exact hinv
  | cons s rest ih =>
    obtain ⟨n, elapsed⟩ := s
    have hel : 0 ≤ elapsed := hsteps _ (List.mem_cons_self _ _)
    have hrate' : 0 ≤ (acquire b n (b.lastUpdate + elapsed)).1.rate := by
      rw [(acquire_rate_capacity b n _).1]; exact hrate
    exact ih _ hrate'
      (acquire_inv b n _ hrate hinv (by linarith))
      (fun s hs => hsteps s (List.mem_cons_of_mem _ hs))

end TokenBucket

namespace CircuitBreaker

theorem recordFailure_lastFailureTime (cb : CircuitBreaker) (t : ℚ) :
    (recordFailure cb t).lastFailureTime = some t := by
  unfold recordFailure
  dsimp only
  split
  · rfl
  · split <;> rfl

theorem recordFailure_config (cb : CircuitBreaker) (t : ℚ) :
    (recordFailure cb t).failureThreshold = cb.failureThreshold ∧
    (recordFailure cb t).recoveryTimeout = cb.recoveryTimeout ∧
    (recordFailure cb t).halfOpenMax = cb.halfOpenMax := by
  unfold recordFailure
  dsimp only
  split
  · exact ⟨rfl, rfl, rfl⟩
  · split <;> exact ⟨rfl, rfl, rfl⟩

theorem recordFailures_append (cb : CircuitBreaker) (l₁ l₂ : List ℚ) :
    recordFailures cb (l₁ ++ l₂) = recordFailures (recordFailures cb l₁) l₂ := by
  induction l₁ generalizing cb with
  | nil => rfl
  | cons t rest ih => simpa [recordFailures] using ih (recordFailure cb t)

/-- While fewer failures than the threshold have been recorded, the breaker
stays closed and just counts them. -/
theorem recordFailures_closed (ts : List ℚ) :
    ∀ cb : CircuitBreaker, cb.state = .closed →
    cb.failures + ts.length < cb.failureThreshold →
    (recordFailures cb ts).state = .closed ∧
    (recordFailures cb ts).failures = cb.failures + ts.length ∧
    (recordFailures cb ts).failureThreshold = cb.failureThreshold ∧
    (recordFailures cb ts).recoveryTimeout = cb.recoveryTimeout ∧
    (recordFailures cb ts).halfOpenMax = cb.halfOpenMax := by
  induction ts with
  | nil => intro cb hs _; exact ⟨hs, by simp [recordFailures], rfl, rfl, rfl⟩
  | cons t rest ih =>
    intro cb hs hlt
    simp only [List.length_cons] at hlt
    have hne : ¬ cb.state = .halfOpen := by rw [hs]; intro h; cases h
    have hth : ¬ cb.failureThreshold ≤ cb.failures + 1 := by omega
    have hstep : recordFailure cb t =
        { cb with failures := cb.failures + 1, lastFailureTime := some t } := by
      unfold recordFailure
      simp [hne, hth]
    have h2 := ih { cb with failures := cb.failures + 1, lastFailureTime := some t }
      hs (show cb.failures + 1 + rest.length < cb.failureThreshold by omega)
    have h2a : (recordFailures
        { cb with failures := cb.failures + 1, lastFailureTime := some t }
        rest).state = .closed := h2.1
    have h2b : (recordFailures
        { cb with failures := cb.failures + 1, lastFailureTime := some t }
        rest).failures = cb.failures + 1 + rest.length := h2.2.1
    have h2c : (recordFailures
        { cb with failures := cb.failures + 1, lastFailureTime := some t }
        rest).failureThreshold = cb.failureThreshold := h2.2.2.1
    have h2d : (recordFailures
        { cb with failures := cb.failures + 1, lastFailureTime := some t }
        rest).recoveryTimeout = cb.recoveryTimeout := h2.2.2.2.1
    have h2e : (recordFailures
        { cb with failures := cb.failures + 1, lastFailureTime := some t }
        rest).halfOpenMax = cb.halfOpenMax := h2.2.2.2.2
    simp only [recordFailures, hstep]
    exact ⟨h2a, by rw [h2b]; simp only [List.length_cons]; omega, h2c, h2d, h2e⟩

theorem recordSuccesses_succ (cb : CircuitBreaker) (k : ℕ) :
    recordSuccesses cb (k + 1) = recordSuccess (recordSuccesses cb k) := by
  induction k generalizing cb with
  | zero => rfl
  | succ k ih =>
    show recordSuccesses (recordSuccess cb) (k + 1) = _
    rw [ih (recordSuccess cb)]
    rfl

/-- While fewer successes than the half-open budget have been recorded, the
breaker keeps probing and just counts them. -/
theorem recordSuccesses_halfOpen (k : ℕ) :
    ∀ cb : CircuitBreaker, cb.state = .halfOpen →
    cb.halfOpenSuccesses + k < cb.halfOpenMax →
    (recordSuccesses cb k).state = .halfOpen ∧
    (recordSuccesses cb k).halfOpenSuccesses = cb.halfOpenSuccesses + k ∧
    (recordSuccesses cb k).halfOpenMax = cb.halfOpenMax ∧
    (recordSuccesses cb k).failures = cb.failures := by
  induction k with
  | zero => intro cb hs _; exact ⟨hs, by simp [recordSuccesses], rfl, rfl⟩
  | succ k ih =>
    intro cb hs hlt
    have hle : ¬ cb.halfOpenMax ≤ cb.halfOpenSuccesses + 1 := by omega
    have hstep : recordSuccess cb =
        { cb with halfOpenSuccesses := cb.halfOpenSuccesses + 1 } := by
      unfold recordSuccess
      simp [hs, hle]
    have h2 := ih { cb with halfOpenSuccesses := cb.halfOpenSuccesses + 1 }
      hs (show cb.halfOpenSuccesses + 1 + k < cb.halfOpenMax by omega)
    have h2a : (recordSuccesses
        { cb with halfOpenSuccesses := cb.halfOpenSuccesses + 1 } k).state =
        .halfOpen := h2.1
    have h2b : (recordSuccesses
        { cb with halfOpenSuccesses := cb.halfOpenSuccesses + 1 }
        k).halfOpenSuccesses = cb.halfOpenSuccesses + 1 + k := h2.2.1
    have h2c : (recordSuccesses
        { cb with halfOpenSuccesses := cb.halfOpenSuccesses + 1 }
        k).halfOpenMax = cb.halfOpenMax := h2.2.2.1
    have h2d : (recordSuccesses
        { cb with halfOpenSuccesses := cb.halfOpenSuccesses + 1 }
        k).failures = cb.failures := h2.2.2.2
    simp only [recordSuccesses, hstep]
    exact ⟨h2a, by rw [h2b]; omega, h2c, h2d⟩

theorem canExecute_closed (cb : CircuitBreaker) (now : ℚ) (hs : cb.state = .closed) :
    canExecute cb now = (true, cb) := by
  obtain ⟨ft, rt, hm, f, l, s, hos⟩ := cb
  simp only at hs
  subst hs
  rfl

theorem canExecute_opened (cb : CircuitBreaker) (now t : ℚ)
    (hs : cb.state = .opened) (hl : cb.lastFailureTime = some t) :
    canExecute cb now =
      if t ≠ 0 ∧ cb.recoveryTimeout ≤ now - t then
        (true, { cb with state := .halfOpen, halfOpenSuccesses := 0 })
      else
        (false, cb) := by
  obtain ⟨ft, rt, hm, f, l, s, hos⟩ := cb
  simp only at hs hl
  subst hs
  subst hl
  rfl

theorem recordFailure_opens (cb : CircuitBreaker) (t : ℚ)
    (hs : cb.state ≠ .halfOpen) (hth : cb.failureThreshold ≤ cb.failures + 1) :
    recordFailure cb t =
      { cb with failures := cb.failures + 1, lastFailureTime := some t,
                state := .opened } := by
  unfold recordFailure
  simp [hs, hth]

theorem recordFailure_halfOpen (cb : CircuitBreaker) (t : ℚ)
    (hs : cb.state = .halfOpen) :
    recordFailure cb t =
      { cb with failures := cb.failures + 1, lastFailureTime := some t,
                state := .opened } := by
  unfold recordFailure
  simp [hs]

theorem recordSuccess_closes (cb : CircuitBreaker)
    (hs : cb.state = .halfOpen) (h : cb.halfOpenMax ≤ cb.halfOpenSuccesses + 1) :
    recordSuccess cb =
      { cb with halfOpenSuccesses := cb.halfOpenSuccesses + 1,
                state := .closed, failures := 0 } := by
  unfold recordSuccess
  simp [hs, h]

end CircuitBreaker

/-- C5: from the half-open state (entered with `halfOpenSuccesses = 0`),
`halfOpenMax` consecutive `record_success` calls transition the breaker to
closed with `failures = 0` (and fewer keep it half-open), while a single
`record_failure` transitions it immediately back to open, recording
`lastFailureTime`; any later permitted `can_execute` re-enters half-open with
the probe progress reset to zero. -/
theorem c5_half_open_probe (cb : CircuitBreaker)
    (hs : cb.state = CBState.halfOpen) (h0 : cb.halfOpenSuccesses = 0)
    (hmax : 1 ≤ cb.halfOpenMax) :
    (∀ k < cb.halfOpenMax, (cb.recordSuccesses k).state = CBState.halfOpen) ∧
    (cb.recordSuccesses cb.halfOpenMax).state = CBState.closed ∧
    (cb.recordSuccesses cb.halfOpenMax).failures = 0 ∧
    (∀ now : ℚ,
      (cb.recordFailure now).state = CBState.opened ∧
      (cb.recordFailure now).lastFailureTime = some now ∧
      (∀ now' : ℚ, now ≠ 0 → cb.recoveryTimeout ≤ now' - now →
        (cb.recordFailure now).canExecute now' =
          (true,
            { (cb.recordFailure now) with
              state := CBState.halfOpen, halfOpenSuccesses := 0 }))) := by
  obtain ⟨m, hm⟩ : ∃ m, cb.halfOpenMax = m + 1 :=
    ⟨cb.halfOpenMax - 1, by omega⟩
  have hbelow := CircuitBreaker.recordSuccesses_halfOpen m cb hs (by omega)
  have hclose := CircuitBreaker.recordSuccess_closes (cb.recordSuccesses m)
    hbelow.1 (by rw [hbelow.2.2.1, hbelow.2.1]; omega)
  refine ⟨?_, ?_, ?_, ?_⟩
  · intro k hk
    exact (CircuitBreaker.recordSuccesses_halfOpen k cb hs (by omega)).1
  · rw [hm, CircuitBreaker.recordSuccesses_succ, hclose]
  · rw [hm, CircuitBreaker.recordSuccesses_succ, hclose]
  · intro now
    have hfail := CircuitBreaker.recordFailure_halfOpen cb now hs
    refine ⟨by rw [hfail], by rw [hfail], ?_⟩
    intro now' hne hrec
    have hce := CircuitBreaker.canExecute_opened (cb.recordFailure now) now' now
      (by rw [hfail]) (by rw [hfail])
    have hrec' : (cb.recordFailure now).recoveryTimeout ≤ now' - now := by
      rw [hfail]; exact hrec
    rw [hce, if_pos ⟨hne, hrec'⟩]

/-- C4: starting from the closed state with zero consecutive failures, after
exactly `failureThreshold` consecutive `record_failure` calls (at positive
monotonic-clock times, the last being `tlast`) with no intervening
`record_success`, `can_execute` returns false, and returns true again only
once `now ≥ tlast + recoveryTimeout`, at which point the breaker transitions
to half-open and that call returns true.  With fewer than `failureThreshold`
recorded failures the breaker is still closed and `can_execute` still
returns true. -/
theorem c4_threshold_failures_open_then_timed_recovery
    (ft : ℕ) (rt : ℚ) (hm : ℕ) (ts : List ℚ) (tlast : ℚ)
    (hlen : ts.length + 1 = ft) (hpos : 0 < tlast) :
    (∀ k < ft, ∀ now : ℚ,
      ((CircuitBreaker.init ft rt hm).recordFailures ((ts ++ [tlast]).take k)).state
          = CBState.closed ∧
      (((CircuitBreaker.init ft rt hm).recordFailures
          ((ts ++ [tlast]).take k)).canExecute now).1 = true) ∧
    ((CircuitBreaker.init ft rt hm).recordFailures (ts ++ [tlast])).state
        = CBState.opened ∧
    ((CircuitBreaker.init ft rt hm).recordFailures (ts ++ [tlast])).failures = ft ∧
    ((CircuitBreaker.init ft rt hm).recordFailures (ts ++ [tlast])).lastFailureTime
        = some tlast ∧
    (∀ now : ℚ,
      ((((CircuitBreaker.init ft rt hm).recordFailures (ts ++ [tlast])).canExecute
          now).1 = true ↔ tlast + rt ≤ now) ∧
      (tlast + rt ≤ now →
        ((CircuitBreaker.init ft rt hm).recordFailures (ts ++ [tlast])).canExecute now
          = (true, { (CircuitBreaker.init ft rt hm).recordFailures (ts ++ [tlast]) with
                     state := CBState.halfOpen, halfOpenSuccesses := 0 }))) := by
  have hstate0 : (CircuitBreaker.init ft rt hm).state = .closed := rfl
  refine ⟨?_, ?_⟩
  · intro k hk now
    have hk' : k ≤ ts.length := by omega
    have htake : (ts ++ [tlast]).take k = ts.take k :=
      List.take_append_of_le_length hk'
    have hlenk : (ts.take k).length = k := by rw [List.length_take]; omega
    have h := CircuitBreaker.recordFailures_closed (ts.take k)
      (CircuitBreaker.init ft rt hm) hstate0
      (show 0 + (ts.take k).length < ft by rw [hlenk]; omega)
    rw [htake]
    exact ⟨h.1, by rw [CircuitBreaker.canExecute_closed _ now h.1]⟩
  · have hts := CircuitBreaker.recordFailures_closed ts
      (CircuitBreaker.init ft rt hm) hstate0
      (show 0 + ts.length < ft by omega)
    have hYf : ((CircuitBreaker.init ft rt hm).recordFailures ts).failures
        = ts.length := by
      rw [hts.2.1]; show 0 + ts.length = ts.length; omega
    have hYth : ((CircuitBreaker.init ft rt hm).recordFailures ts).failureThreshold
        = ft := hts.2.2.1
    have hYrt : ((CircuitBreaker.init ft rt hm).recordFailures ts).recoveryTimeout
        = rt := hts.2.2.2.1
    have happ : (CircuitBreaker.init ft rt hm).recordFailures (ts ++ [tlast]) =
        CircuitBreaker.recordFailure
          ((CircuitBreaker.init ft rt hm).recordFailures ts) tlast := by
      rw [CircuitBreaker.recordFailures_append]; rfl
    have hopen := CircuitBreaker.recordFailure_opens
      ((CircuitBreaker.init ft rt hm).recordFailures ts) tlast
      (by rw [hts.1]; intro h; cases h)
      (by rw [hYth, hYf]; omega)
    rw [happ, hopen]
    refine ⟨rfl, by simp only; rw [hYf]; omega, rfl, ?_⟩
    intro now
    have hce := CircuitBreaker.canExecute_opened
      { (CircuitBreaker.init ft rt hm).recordFailures ts with
        failures := ((CircuitBreaker.init ft rt hm).recordFailures ts).failures + 1,
        lastFailureTime := some tlast, state := CBState.opened }
      now tlast rfl rfl
    rw [hce]
    have hrt : ({ (CircuitBreaker.init ft rt hm).recordFailures ts with
        failures := ((CircuitBreaker.init ft rt hm).recordFailures ts).failures + 1,
        lastFailureTime := some tlast,
        state := CBState.opened } : CircuitBreaker).recoveryTimeout = rt := hYrt
    rw [hrt]
    by_cases hnow : tlast + rt ≤ now
    · have hcond : tlast ≠ 0 ∧ rt ≤ now - tlast := ⟨ne_of_gt hpos, by linarith⟩
      rw [if_pos hcond]
      exact ⟨by simp [hnow], fun _ => rfl⟩
    · have hcond : ¬ (tlast ≠ 0 ∧ rt ≤ now - tlast) := by
        intro h
        exact hnow (by linarith [h.2])
      rw [if_neg hcond]
      constructor
      · constructor
        · intro h; cases h
        · intro h; exact absurd h hnow
      · intro h; exact absurd h hnow

/-- Witness for C4: threshold 3, recovery timeout 60, failures at times
1, 2, 3; the breaker is open afterwards, still rejects at time 30, and the
recovery condition is exactly `3 + 60 ≤ now`. -/
theorem c4_threshold_failures_open_then_timed_recovery_witness :
    ((CircuitBreaker.init 3 60 3).recordFailures [1, 2, 3]).state
        = CBState.opened ∧
    ((((CircuitBreaker.init 3 60 3).recordFailures [1, 2, 3]).canExecute 30).1
        = true ↔ (3 : ℚ) + 60 ≤ 30) ∧
    ((((CircuitBreaker.init 3 60 3).recordFailures [1, 2, 3]).canExecute 63).1
        = true ↔ (3 : ℚ) + 60 ≤ 63) := by
  have h := c4_threshold_failures_open_then_timed_recovery 3 60 3 [1, 2] 3
    (by decide) (by norm_num)
  exact ⟨h.2.1, (h.2.2.2.2 30).1, (h.2.2.2.2 63).1⟩

/-- Witness for C5: a breaker with probe budget 3 that has just entered
half-open; three successes close it, one failure at time 7 re-opens it. -/
theorem c5_half_open_probe_witness :
    (({ failureThreshold := 10, recoveryTimeout := 60, halfOpenMax := 3,
        failures := 4, lastFailureTime := some 5, state := CBState.halfOpen,
        halfOpenSuccesses := 0 } : CircuitBreaker).recordSuccesses 3).state
        = CBState.closed ∧
    (({ failureThreshold := 10, recoveryTimeout := 60, halfOpenMax := 3,
        failures := 4, lastFailureTime := some 5, state := CBState.halfOpen,
        halfOpenSuccesses := 0 } : CircuitBreaker).recordFailure 7).state
        = CBState.opened := by
  have h := c5_half_open_probe
    { failureThreshold := 10, recoveryTimeout := 60, halfOpenMax := 3,
      failures := 4, lastFailureTime := some 5, state := CBState.halfOpen,
      halfOpenSuccesses := 0 } rfl rfl (by decide)
  exact ⟨h.2.1, (h.2.2.2 7).1⟩

/-- C7: each `acquire(n)` call first recomputes
`tokens = min(capacity, tokens + elapsed * rate)` from the time elapsed since
the last recomputation; if the recomputed balance covers `n` it deducts `n`
and returns wait `0`, otherwise it returns `(n - tokens) / rate` as the wait
time and does not deduct from the (refilled) balance. -/
theorem c7_acquire_contract (b : TokenBucket) (n : ℕ) (now : ℚ) :
    TokenBucket.acquire b n now =
      if (n : ℚ) ≤ min b.capacity (b.tokens + (now - b.lastUpdate) * b.rate) then
        ({ b with
            tokens := min b.capacity (b.tokens + (now - b.lastUpdate) * b.rate)
              - (n : ℚ),
            lastUpdate := now }, 0)
      else
        ({ b with
            tokens := min b.capacity (b.tokens + (now - b.lastUpdate) * b.rate),
            lastUpdate := now },
         ((n : ℚ) - min b.capacity (b.tokens + (now - b.lastUpdate) * b.rate))
            / b.rate) := by
  unfold TokenBucket.acquire
  dsimp only

/-- C8: for a bucket constructed with positive rate and capacity, after any
sequence of `acquire` calls with non-negative elapsed times between them, the
token balance satisfies `0 ≤ tokens ≤ capacity`: an acquire never drives the
balance negative and the lazy refill never raises it above capacity. -/
theorem c8_token_balance_invariant (rate capacity t0 : ℚ) (steps : List (ℕ × ℚ))
    (hrate : 0 < rate) (hcap : 0 < capacity)
    (hsteps : ∀ s ∈ steps, 0 ≤ s.2) :
    0 ≤ (TokenBucket.runAcquires (TokenBucket.init rate capacity t0) steps).tokens ∧
    (TokenBucket.runAcquires (TokenBucket.init rate capacity t0) steps).tokens ≤
      (TokenBucket.runAcquires (TokenBucket.init rate capacity t0) steps).capacity :=
  TokenBucket.runAcquires_inv steps _ (le_of_lt hrate)
    ⟨le_of_lt hcap, le_refl _⟩ hsteps

/-- Witness for C8: the service's bucket (rate 50/60 tokens per second, burst
capacity 10), drained by two immediate requests and a delayed one. -/
theorem c8_token_balance_invariant_witness :
    0 ≤ (TokenBucket.runAcquires (TokenBucket.init (50/60) 10 0)
          [(1, 0), (12, 0), (3, 6)]).tokens ∧
    (TokenBucket.runAcquires (TokenBucket.init (50/60) 10 0)
          [(1, 0), (12, 0), (3, 6)]).tokens ≤
      (TokenBucket.runAcquires (TokenBucket.init (50/60) 10 0)
          [(1, 0), (12, 0), (3, 6)]).capacity :=
  c8_token_balance_invariant (50/60) 10 0 [(1, 0), (12, 0), (3, 6)]
    (by norm_num) (by norm_num) (by decide)

/-- C10: `progress_percent` is total for all jobs — it returns `0` when
`total = 0` instead of dividing by zero, equals `processed / total * 100`
when `total > 0`, and the status query of a zero-item job reports progress
`0` without erroring. -/
theorem c10_progress_percent_total (j : BatchJob) (t : ℚ) :
    (j.total = 0 → j.progressPercent = 0) ∧
    (0 < j.total → j.progressPercent = (j.processed : ℚ) / (j.total : ℚ) * 100) ∧
    ((createBatchJob 0 t).toDict).progressPercent = 0 := by
  refine ⟨?_, ?_, ?_⟩
  · intro h
    simp [BatchJob.progressPercent, h]
  · intro h
    simp [BatchJob.progressPercent, h]
  · simp [BatchJob.toDict, createBatchJob, BatchJob.progressPercent,
      pyRound1, pyRoundInt]

/-- Witness for C10: a zero-item job reports progress 0; a job with 3 of 4
items processed reports 75. -/
theorem c10_progress_percent_total_witness :
    (createBatchJob 0 0).progressPercent = 0 ∧
    ({ createBatchJob 4 0 with processed := 3 } : BatchJob).progressPercent
      = (3 : ℚ) / 4 * 100 :=
  ⟨(c10_progress_percent_total (createBatchJob 0 0) 0).1 rfl,
   (c10_progress_percent_total { createBatchJob 4 0 with processed := 3 } 0).2.1
     (by decide)⟩

theorem applyUpdates_append (j : BatchJob) (l₁ l₂ : List UpdateCall) :
    applyUpdates j (l₁ ++ l₂) = applyUpdates (applyUpdates j l₁) l₂ := by
  induction l₁ generalizing j with
  | nil => rfl
  | cons c rest ih => simpa [applyUpdates] using ih _

/-- One `update_batch_progress` call: `total` is unchanged, `processed` goes
up by one, exactly one of `successful`/`failed` goes up by one, the status is
unchanged while `processed` stays below `total` and becomes terminal once it
reaches it. -/
theorem updateBatchProgress_step (j : BatchJob) (s : Bool) (r : Option ℕ)
    (e f : Option String) (now : ℚ) :
    (updateBatchProgress j s r e f now).total = j.total ∧
    (updateBatchProgress j s r e f now).processed = j.processed + 1 ∧
    (updateBatchProgress j s r e f now).successful
        + (updateBatchProgress j s r e f now).failed
      = j.successful + j.failed + 1 ∧
    j.successful ≤ (updateBatchProgress j s r e f now).successful ∧
    j.failed ≤ (updateBatchProgress j s r e f now).failed ∧
    (j.processed + 1 < j.total →
      (updateBatchProgress j s r e f now).status = j.status) ∧
    (j.total ≤ j.processed + 1 →
      ((updateBatchProgress j s r e f now).status.isTerminal = true ∧
       (updateBatchProgress j s r e f now).completedAt = some now)) := by
  cases s <;> by_cases hc : j.total ≤ j.processed + 1 <;>
    simp only [updateBatchProgress] <;>
    simp [hc, BatchStatus.isTerminal, apply_ite BatchStatus.isTerminal] <;>
    first
    | omega
    | (refine ⟨by omega, ?_⟩; split_ifs <;> rfl)

/-- While strictly fewer calls than `total` have been applied, the job stays
in the processing state and just counts outcomes. -/
theorem applyUpdates_processing (cs : List UpdateCall) :
    ∀ j : BatchJob, j.status = BatchStatus.processing →
    j.processed + cs.length < j.total →
    (applyUpdates j cs).status = BatchStatus.processing ∧
    (applyUpdates j cs).total = j.total ∧
    (applyUpdates j cs).processed = j.processed + cs.length ∧
    (applyUpdates j cs).successful + (applyUpdates j cs).failed
      = j.successful + j.failed + cs.length := by
  induction cs with
  | nil => intro j hs _; exact ⟨hs, rfl, by simp [applyUpdates], by simp [applyUpdates]⟩
  | cons c rest ih =>
    intro j hs hlt
    simp only [List.length_cons] at hlt
    have hstep := updateBatchProgress_step j c.success c.result c.error c.filename c.now
    have hstatus : (updateBatchProgress j c.success c.result c.error c.filename
        c.now).status = BatchStatus.processing := by
      rw [hstep.2.2.2.2.2.1 (by omega)]; exact hs
    have h2 := ih (updateBatchProgress j c.success c.result c.error c.filename c.now)
      hstatus (by rw [hstep.2.1, hstep.1]; omega)
    simp only [applyUpdates]
    refine ⟨h2.1, by rw [h2.2.1, hstep.1], ?_, ?_⟩
    · rw [h2.2.2.1, hstep.2.1]; simp only [List.length_cons]; omega
    · rw [h2.2.2.2, hstep.2.2.1]; simp only [List.length_cons]; omega

theorem strTake_length_le (s : String) (n : ℕ) : (strTake s n).length ≤ n := by
  show (s.data.take n).length ≤ n
  rw [List.length_take]
  omega

theorem lastN_length_le {α : Type} (n : ℕ) (l : List α) : (lastN n l).length ≤ n := by
  show (l.drop (l.length - n)).length ≤ n
  rw [List.length_drop]
  omega

/-- C3 counterexample: a batch job created with `total = 0` has
`processed == total` from creation onwards (no update call is ever made for
it), yet its status is `processing`, which is not terminal — so "status is
terminal if and only if processed == total" fails at `total = 0`. -/
theorem c3_counterexample_zero_total :
    (createBatchJob 0 0).processed = (createBatchJob 0 0).total ∧
    (createBatchJob 0 0).status = BatchStatus.processing ∧
    (createBatchJob 0 0).status.isTerminal = false :=
  ⟨rfl, rfl, rfl⟩

/-- C3 (amended to `total ≥ 1`): for a batch job created by
`create_batch_job` with `total ≥ 1` and mutated only through
`update_batch_progress`, one call per item (at most `total` calls),
`processed` equals the number of recorded outcomes,
`processed == successful + failed`, `processed ≤ total`, each update leaves
all three counters non-decreasing, and the status is terminal exactly when
`processed == total`.  (For `total = 0` the code never leaves `processing`;
see the counterexample.) -/
theorem c3_batch_job_invariant (total : ℕ) (t0 : ℚ) (calls : List UpdateCall)
    (htotal : 0 < total) (hlen : calls.length ≤ total) :
    (applyUpdates (createBatchJob total t0) calls).processed = calls.length ∧
    (applyUpdates (createBatchJob total t0) calls).processed
      = (applyUpdates (createBatchJob total t0) calls).successful
        + (applyUpdates (createBatchJob total t0) calls).failed ∧
    (applyUpdates (createBatchJob total t0) calls).processed ≤ total ∧
    ((applyUpdates (createBatchJob total t0) calls).status.isTerminal = true ↔
      (applyUpdates (createBatchJob total t0) calls).processed = total) ∧
    (∀ (j : BatchJob) (c : UpdateCall),
      j.processed ≤ (updateBatchProgress j c.success c.result c.error
        c.filename c.now).processed ∧
      j.successful ≤ (updateBatchProgress j c.success c.result c.error
        c.filename c.now).successful ∧
      j.failed ≤ (updateBatchProgress j c.success c.result c.error
        c.filename c.now).failed) := by
  have hmono : ∀ (j : BatchJob) (c : UpdateCall),
      j.processed ≤ (updateBatchProgress j c.success c.result c.error
        c.filename c.now).processed ∧
      j.successful ≤ (updateBatchProgress j c.success c.result c.error
        c.filename c.now).successful ∧
      j.failed ≤ (updateBatchProgress j c.success c.result c.error
        c.filename c.now).failed := by
    intro j c
    have h := updateBatchProgress_step j c.success c.result c.error c.filename c.now
    exact ⟨by rw [h.2.1]; omega, h.2.2.2.1, h.2.2.2.2.1⟩
  by_cases hcase : calls.length < total
  · have h := applyUpdates_processing calls (createBatchJob total t0) rfl
      (show 0 + calls.length < total by omega)
    have hp : (applyUpdates (createBatchJob total t0) calls).processed
        = calls.length := by
      rw [h.2.2.1]; show 0 + calls.length = calls.length; omega
    have hsum : (applyUpdates (createBatchJob total t0) calls).successful
        + (applyUpdates (createBatchJob total t0) calls).failed
        = calls.length := by
      rw [h.2.2.2]; show 0 + 0 + calls.length = calls.length; omega
    refine ⟨hp, by rw [hp, hsum], by rw [hp]; omega, ?_, hmono⟩
    rw [h.1, hp]
    simp [BatchStatus.isTerminal]
    omega
  · have hlen' : calls.length = total := by omega
    rcases List.eq_nil_or_concat calls with hnil | ⟨cs, c, hconcat⟩
    · exfalso
      subst hnil
      simp at hlen'
      omega
    · subst hconcat
      rw [List.concat_eq_append] at hlen' ⊢
      have hcs : cs.length + 1 = total := by
        simpa using hlen'
      have happ : applyUpdates (createBatchJob total t0) (cs ++ [c])
          = updateBatchProgress (applyUpdates (createBatchJob total t0) cs)
              c.success c.result c.error c.filename c.now := by
        rw [applyUpdates_append]; rfl
      have hpre := applyUpdates_processing cs (createBatchJob total t0) rfl
        (show 0 + cs.length < total by omega)
      have hYt : (applyUpdates (createBatchJob total t0) cs).total = total :=
        hpre.2.1
      have hYp : (applyUpdates (createBatchJob total t0) cs).processed
          = cs.length := by
        rw [hpre.2.2.1]; show 0 + cs.length = cs.length; omega
      have hYsum : (applyUpdates (createBatchJob total t0) cs).successful
          + (applyUpdates (createBatchJob total t0) cs).failed = cs.length := by
        rw [hpre.2.2.2]; show 0 + 0 + cs.length = cs.length; omega
      have hstep := updateBatchProgress_step
        (applyUpdates (createBatchJob total t0) cs)
        c.success c.result c.error c.filename c.now
      have hterm := hstep.2.2.2.2.2.2 (by rw [hYt, hYp]; omega)
      rw [happ]
      have hp : (updateBatchProgress (applyUpdates (createBatchJob total t0) cs)
          c.success c.result c.error c.filename c.now).processed
          = (cs ++ [c]).length := by
        rw [hstep.2.1, hYp]
        simp
      have hsum : (updateBatchProgress (applyUpdates (createBatchJob total t0) cs)
          c.success c.result c.error c.filename c.now).successful
          + (updateBatchProgress (applyUpdates (createBatchJob total t0) cs)
          c.success c.result c.error c.filename c.now).failed
          = (cs ++ [c]).length := by
        rw [hstep.2.2.1, hYsum]
        simp
      refine ⟨hp, by rw [hp, hsum], by rw [hp]; simp; omega, ?_, hmono⟩
      rw [hterm.1, hp]
      constructor
      · intro _
        simp
        omega
      · intro _
        rfl

/-- Witness for C3: a two-item batch, one success then one failure, ends with
`processed = 2` and a terminal (partial) status. -/
theorem c3_batch_job_invariant_witness :
    (applyUpdates (createBatchJob 2 0)
      [{ success := true, result := some 7, error := none, filename := none,
         now := 1 },
       { success := false, result := none, error := some "x", filename := none,
         now := 2 }]).processed = 2 ∧
    ((applyUpdates (createBatchJob 2 0)
      [{ success := true, result := some 7, error := none, filename := none,
         now := 1 },
       { success := false, result := none, error := some "x", filename := none,
         now := 2 }]).status.isTerminal = true ↔
     (applyUpdates (createBatchJob 2 0)
      [{ success := true, result := some 7, error := none, filename := none,
         now := 1 },
       { success := false, result := none, error := some "x", filename := none,
         now := 2 }]).processed = 2) := by
  have h := c3_batch_job_invariant 2 0
    [{ success := true, result := some 7, error := none, filename := none,
       now := 1 },
     { success := false, result := none, error := some "x", filename := none,
       now := 2 }]
    (by decide) (by decide)
  exact ⟨h.1, h.2.2.2.1⟩

/-- C9: on the `update_batch_progress` call with which `processed` reaches
`total`, `completed_at` is stamped with the current time and the status is
classified as completed when `failed = 0`, failed when `successful = 0`, and
partial otherwise; a recorded failure with a non-empty message appends an
error record truncated to at most 200 characters; and the status query
exposes exactly the last 10 error records. -/
theorem c9_terminal_classification (j : BatchJob) (s : Bool) (r : Option ℕ)
    (e f : Option String) (now : ℚ) (m : String)
    (hreach : j.processed + 1 = j.total) (hm : m ≠ "") :
    (updateBatchProgress j s r e f now).completedAt = some now ∧
    (s = true → (updateBatchProgress j s r e f now).status
        = if j.failed = 0 then BatchStatus.completed
          else BatchStatus.partialDone) ∧
    (s = false → (updateBatchProgress j s r e f now).status
        = if j.successful = 0 then BatchStatus.failed
          else BatchStatus.partialDone) ∧
    (updateBatchProgress j false r (some m) f now).errors
        = j.errors ++ [{ filename := orUnknown f, error := strTake m 200 }] ∧
    (strTake m 200).length ≤ 200 ∧
    j.toDict.errors = lastN 10 j.errors ∧
    j.toDict.errors.length ≤ 10 := by
  have hc : j.total ≤ j.processed + 1 := by omega
  refine ⟨?_, ?_, ?_, ?_, strTake_length_le m 200, rfl, lastN_length_le 10 _⟩
  · exact ((updateBatchProgress_step j s r e f now).2.2.2.2.2.2 hc).2
  · intro hs
    subst hs
    simp [updateBatchProgress, hc]
  · intro hs
    subst hs
    simp [updateBatchProgress, hc]
  · simp [updateBatchProgress, hc, hm]

/-- Witness for C9: a job one outcome away from completion; the closing
failure with message "boom" stamps completion and yields a partial status. -/
theorem c9_terminal_classification_witness :
    (updateBatchProgress
      { total := 2, processed := 1, successful := 1, failed := 0,
        status := BatchStatus.processing, createdAt := 0, completedAt := none,
        errors := [], results := [5] }
      false none (some "boom") none 9).completedAt = some 9 ∧
    (updateBatchProgress
      { total := 2, processed := 1, successful := 1, failed := 0,
        status := BatchStatus.processing, createdAt := 0, completedAt := none,
        errors := [], results := [5] }
      false none (some "boom") none 9).status
      = if (1 : ℕ) = 0 then BatchStatus.failed else BatchStatus.partialDone := by
  have h := c9_terminal_classification
    { total := 2, processed := 1, successful := 1, failed := 0,
      status := BatchStatus.processing, createdAt := 0, completedAt := none,
      errors := [], results := [5] }
    false none (some "boom") none 9 "boom" (by decide) (by decide)
  exact ⟨h.1, h.2.2.1 rfl⟩

theorem isRetryable_circuitOpen : isRetryableError circuitOpenMsg = true := by
  decide

theorem recordFailure_state_opened (cb : CircuitBreaker) (t : ℚ)
    (hs : cb.state = CBState.opened) :
    (cb.recordFailure t).state = CBState.opened := by
  unfold CircuitBreaker.recordFailure
  have hne : ¬ cb.state = CBState.halfOpen := by rw [hs]; intro h; cases h
  rw [if_neg hne]
  split
  · rfl
  · exact hs

theorem failAction_continue (mr : ℕ) (base maxD : ℚ) (jitter : ℕ → ℚ)
    (attempt : ℕ) (msg : String) (st : ExecState)
    (hretry : isRetryableError msg = true) (hatt : attempt < mr) :
    failAction mr base maxD jitter attempt msg st =
      Sum.inl { st with
                cb := st.cb.recordFailure st.now,
                now := st.now + backoffDelay base maxD attempt (jitter attempt),
                delays := st.delays
                  ++ [backoffDelay base maxD attempt (jitter attempt)] } := by
  unfold failAction
  rw [hretry]
  simp [show ¬ mr ≤ attempt from by omega]

theorem failAction_raise_final (mr : ℕ) (base maxD : ℚ) (jitter : ℕ → ℚ)
    (attempt : ℕ) (msg : String) (st : ExecState) (hatt : mr ≤ attempt) :
    failAction mr base maxD jitter attempt msg st =
      Sum.inr ({ st with cb := st.cb.recordFailure st.now },
               Except.error msg) := by
  unfold failAction
  split <;> rfl

theorem failAction_raise_fatal (mr : ℕ) (base maxD : ℚ) (jitter : ℕ → ℚ)
    (attempt : ℕ) (msg : String) (st : ExecState)
    (hretry : isRetryableError msg = false) :
    failAction mr base maxD jitter attempt msg st =
      Sum.inr ({ st with cb := st.cb.recordFailure st.now },
               Except.error msg) := by
  unfold failAction
  rw [hretry]
  simp

theorem attemptStep_rejected (mr : ℕ) (base maxD : ℚ) (task : ℕ → Outcome)
    (jitter : ℕ → ℚ) (attempt : ℕ) (st : ExecState) (t : ℚ)
    (hstate : st.cb.state = CBState.opened)
    (hlast : st.cb.lastFailureTime = some t)
    (hgap : st.now - t < st.cb.recoveryTimeout) :
    attemptStep mr base maxD task jitter attempt st
      = failAction mr base maxD jitter attempt circuitOpenMsg st := by
  have hce : st.cb.canExecute st.now = (false, st.cb) := by
    rw [CircuitBreaker.canExecute_opened st.cb st.now t hstate hlast, if_neg]
    intro h
    linarith [h.2]
  unfold attemptStep
  rw [hce]
  rfl

theorem attemptStep_allowed_err (mr : ℕ) (base maxD : ℚ) (task : ℕ → Outcome)
    (jitter : ℕ → ℚ) (attempt : ℕ) (st : ExecState) (m : String)
    (hstate : st.cb.state = CBState.closed)
    (htask : task st.invocations = Outcome.err m) :
    attemptStep mr base maxD task jitter attempt st
      = failAction mr base maxD jitter attempt m
          { st with invocations := st.invocations + 1 } := by
  have hce : st.cb.canExecute st.now = (true, st.cb) :=
    CircuitBreaker.canExecute_closed st.cb st.now hstate
  simp only [attemptStep, hce, htask]
  rfl

theorem attemptStep_allowed_ok (mr : ℕ) (base maxD : ℚ) (task : ℕ → Outcome)
    (jitter : ℕ → ℚ) (attempt : ℕ) (st : ExecState) (v : ℕ)
    (hstate : st.cb.state = CBState.closed)
    (htask : task st.invocations = Outcome.ok v) :
    attemptStep mr base maxD task jitter attempt st
      = Sum.inr ({ st with
                   invocations := st.invocations + 1,
                   cb := st.cb.recordSuccess }, Except.ok v) := by
  have hce : st.cb.canExecute st.now = (true, st.cb) :=
    CircuitBreaker.canExecute_closed st.cb st.now hstate
  simp only [attemptStep, hce, htask]
  rfl

theorem retryLoop_succ (mr : ℕ) (base maxD : ℚ) (task : ℕ → Outcome)
    (jitter : ℕ → ℚ) (attempt fuel : ℕ) (st : ExecState) :
    retryLoop mr base maxD task jitter attempt (fuel + 1) st
      = match attemptStep mr base maxD task jitter attempt st with
        | Sum.inr r => r
        | Sum.inl st2 =>
          retryLoop mr base maxD task jitter (attempt + 1) fuel st2 := rfl

/-- With the breaker open and every backoff delay shorter than the recovery
timeout, every attempt of the loop is rejected by `can_execute`: the task is
never invoked, each rejection sleeps a backoff, and the circuit-open error
propagates after the last attempt. -/
theorem retryLoop_circuit_open (mr : ℕ) (base maxD : ℚ) (task : ℕ → Outcome)
    (jitter : ℕ → ℚ) :
    ∀ (fuel attempt : ℕ) (st : ExecState) (t : ℚ),
    attempt + fuel = mr + 1 → 1 ≤ fuel →
    st.cb.state = CBState.opened →
    st.cb.lastFailureTime = some t →
    st.now - t < st.cb.recoveryTimeout →
    (∀ k, backoffDelay base maxD k (jitter k) < st.cb.recoveryTimeout) →
    (retryLoop mr base maxD task jitter attempt fuel st).2
      = Except.error circuitOpenMsg ∧
    (retryLoop mr base maxD task jitter attempt fuel st).1.invocations
      = st.invocations ∧
    (retryLoop mr base maxD task jitter attempt fuel st).1.delays
      = st.delays ++ (List.range' attempt (fuel - 1)).map
          (fun k => backoffDelay base maxD k (jitter k)) := by
  intro fuel
  induction fuel with
  | zero =>
    intro attempt st t _ h1
    exact absurd h1 (by omega)
  | succ f ih =>
    intro attempt st t hsum _ hstate hlast hgap hdelay
    have hreject := attemptStep_rejected mr base maxD task jitter attempt st t
      hstate hlast hgap
    cases f with
    | zero =>
      have hfinal := failAction_raise_final mr base maxD jitter attempt
        circuitOpenMsg st (by omega)
      have hstep : retryLoop mr base maxD task jitter attempt (0 + 1) st
          = ({ st with cb := st.cb.recordFailure st.now },
             Except.error circuitOpenMsg) := by
        rw [retryLoop_succ, hreject, hfinal]
      rw [hstep]
      exact ⟨rfl, rfl, by simp⟩
    | succ f' =>
      have hcont := failAction_continue mr base maxD jitter attempt
        circuitOpenMsg st isRetryable_circuitOpen (by omega)
      have hconfig := CircuitBreaker.recordFailure_config st.cb st.now
      have h2 := ih (attempt + 1)
        { st with
          cb := st.cb.recordFailure st.now,
          now := st.now + backoffDelay base maxD attempt (jitter attempt),
          delays := st.delays
            ++ [backoffDelay base maxD attempt (jitter attempt)] }
        st.now
        (by omega) (by omega)
        (recordFailure_state_opened st.cb st.now hstate)
        (CircuitBreaker.recordFailure_lastFailureTime st.cb st.now)
        (by
          show st.now + backoffDelay base maxD attempt (jitter attempt) - st.now
            < (st.cb.recordFailure st.now).recoveryTimeout
          rw [hconfig.2.1]
          have := hdelay attempt
          linarith)
        (by
          intro k
          show backoffDelay base maxD k (jitter k)
            < (st.cb.recordFailure st.now).recoveryTimeout
          rw [hconfig.2.1]
          exact hdelay k)
      have hstep : retryLoop mr base maxD task jitter attempt (f' + 1 + 1) st
          = retryLoop mr base maxD task jitter (attempt + 1) (f' + 1)
              { st with
                cb := st.cb.recordFailure st.now,
                now := st.now + backoffDelay base maxD attempt (jitter attempt),
                delays := st.delays
                  ++ [backoffDelay base maxD attempt (jitter attempt)] } := by
        rw [retryLoop_succ, hreject, hcont]
      rw [hstep]
      refine ⟨h2.1, ?_, ?_⟩
      · rw [h2.2.1]
      · rw [h2.2.2]
        show (st.delays ++ [backoffDelay base maxD attempt (jitter attempt)])
            ++ (List.range' (attempt + 1) (f' + 1 - 1)).map
              (fun k => backoffDelay base maxD k (jitter k))
          = st.delays ++ (List.range' attempt (f' + 1 + 1 - 1)).map
              (fun k => backoffDelay base maxD k (jitter k))
        rw [List.append_assoc, List.singleton_append,
          show f' + 1 + 1 - 1 = (f' + 1 - 1) + 1 from by omega,
          List.range'_succ]
        rfl

/-- C2 counterexample: the circuit-open rejection message contains the
retryable pattern "temporarily unavailable", so `_is_retryable_error`
classifies it as retryable; with an open breaker (recovery timeout 1000,
last failure at time 1) and `max_retries = 3`, the executor sleeps three
backoff delays (2, 4 and 8 seconds at zero jitter) before the circuit-open
error finally propagates — the rejection is neither non-retryable nor an
immediate failure, contradicting the claim. -/
theorem c2_counterexample_circuit_open_retried :
    isRetryableError circuitOpenMsg = true ∧
    (executeWithRetry 3 2 60 (fun _ => Outcome.ok 0) (fun _ => 0)
      { cb := { failureThreshold := 10, recoveryTimeout := 1000,
                halfOpenMax := 3, failures := 10, lastFailureTime := some 1,
                state := CBState.opened, halfOpenSuccesses := 0 },
        now := 1, invocations := 0, delays := [] }).1.delays = [2, 4, 8] ∧
    (executeWithRetry 3 2 60 (fun _ => Outcome.ok 0) (fun _ => 0)
      { cb := { failureThreshold := 10, recoveryTimeout := 1000,
                halfOpenMax := 3, failures := 10, lastFailureTime := some 1,
                state := CBState.opened, halfOpenSuccesses := 0 },
        now := 1, invocations := 0, delays := [] }).2
      = Except.error circuitOpenMsg ∧
    (executeWithRetry 3 2 60 (fun _ => Outcome.ok 0) (fun _ => 0)
      { cb := { failureThreshold := 10, recoveryTimeout := 1000,
                halfOpenMax := 3, failures := 10, lastFailureTime := some 1,
                state := CBState.opened, halfOpenSuccesses := 0 },
        now := 1, invocations := 0, delays := [] }).1.invocations = 0 := by
  refine ⟨isRetryable_circuitOpen, ?_, ?_, ?_⟩ <;>
    norm_num [executeWithRetry, retryLoop, attemptStep, failAction,
      backoffDelay, CircuitBreaker.canExecute, CircuitBreaker.recordFailure,
      isRetryable_circuitOpen]

/-- C2 (amended): when `can_execute` returns false the attempt raises the
"Circuit breaker is open - service temporarily unavailable" error *inside*
the executor's try block; that error is classified retryable by
`_is_retryable_error` (its message matches the "temporarily unavailable"
pattern), records a failure on the breaker, and triggers backoff-and-retry
like any transient task error.  With the breaker open at the first attempt
and every backoff delay shorter than the recovery timeout, the call fails
with the circuit-open error only after all `maxRetries + 1` attempts,
sleeping `maxRetries` backoff delays, and the task is never invoked. -/
theorem c2_circuit_open_rejection (mr : ℕ) (base maxD : ℚ)
    (task : ℕ → Outcome) (jitter : ℕ → ℚ) (st : ExecState) (t : ℚ)
    (hstate : st.cb.state = CBState.opened)
    (hlast : st.cb.lastFailureTime = some t)
    (hgap : st.now - t < st.cb.recoveryTimeout)
    (hdelay : ∀ k, backoffDelay base maxD k (jitter k)
      < st.cb.recoveryTimeout) :
    isRetryableError circuitOpenMsg = true ∧
    (executeWithRetry mr base maxD task jitter st).2
      = Except.error circuitOpenMsg ∧
    (executeWithRetry mr base maxD task jitter st).1.invocations
      = st.invocations ∧
    (executeWithRetry mr base maxD task jitter st).1.delays
      = st.delays ++ (List.range mr).map
          (fun k => backoffDelay base maxD k (jitter k)) := by
  have h := retryLoop_circuit_open mr base maxD task jitter (mr + 1) 0 st t
    (by omega) (by omega) hstate hlast hgap hdelay
  refine ⟨isRetryable_circuitOpen, h.1, h.2.1, ?_⟩
  rw [List.range_eq_range']
  exact h.2.2

/-- Witness for C2 (amended): the concrete open-breaker run of the
counterexample, reached through the general theorem. -/
theorem c2_circuit_open_rejection_witness :
    (executeWithRetry 3 2 60 (fun _ => Outcome.ok 0) (fun _ => 0)
      { cb := { failureThreshold := 10, recoveryTimeout := 1000,
                halfOpenMax := 3, failures := 10, lastFailureTime := some 1,
                state := CBState.opened, halfOpenSuccesses := 0 },
        now := 1, invocations := 0, delays := [] }).2
      = Except.error circuitOpenMsg ∧
    (executeWithRetry 3 2 60 (fun _ => Outcome.ok 0) (fun _ => 0)
      { cb := { failureThreshold := 10, recoveryTimeout := 1000,
                halfOpenMax := 3, failures := 10, lastFailureTime := some 1,
                state := CBState.opened, halfOpenSuccesses := 0 },
        now := 1, invocations := 0, delays := [] }).1.invocations = 0 := by
  have h := c2_circuit_open_rejection 3 2 60 (fun _ => Outcome.ok 0)
    (fun _ => 0)
    { cb := { failureThreshold := 10, recoveryTimeout := 1000,
              halfOpenMax := 3, failures := 10, lastFailureTime := some 1,
              state := CBState.opened, halfOpenSuccesses := 0 },
      now := 1, invocations := 0, delays := [] }
    1 rfl rfl (by norm_num)
    (fun k => lt_of_le_of_lt (min_le_right _ _) (by norm_num))
  exact ⟨h.2.1, h.2.2.1⟩

theorem recordFailure_closed_below (cb : CircuitBreaker) (t : ℚ)
    (hs : cb.state = CBState.closed)
    (hth : cb.failures + 1 < cb.failureThreshold) :
    cb.recordFailure t =
      { cb with failures := cb.failures + 1, lastFailureTime := some t } := by
  have hne : ¬ cb.state = CBState.halfOpen := by rw [hs]; intro h; cases h
  unfold CircuitBreaker.recordFailure
  simp [hne, show ¬ cb.failureThreshold ≤ cb.failures + 1 from by omega]

/-- With the breaker closed and far from its threshold, a task that fails
with a retryable error on every invocation is invoked once per attempt, each
non-final attempt sleeps its backoff, and the error propagates after the
last attempt. -/
theorem retryLoop_retryable_err (mr : ℕ) (base maxD : ℚ) (task : ℕ → Outcome)
    (jitter : ℕ → ℚ) (msg : String)
    (htask : ∀ k, task k = Outcome.err msg)
    (hretry : isRetryableError msg = true) :
    ∀ (fuel attempt : ℕ) (st : ExecState),
    attempt + fuel = mr + 1 → 1 ≤ fuel →
    st.cb.state = CBState.closed →
    st.cb.failures + fuel ≤ st.cb.failureThreshold →
    (retryLoop mr base maxD task jitter attempt fuel st).2
      = Except.error msg ∧
    (retryLoop mr base maxD task jitter attempt fuel st).1.invocations
      = st.invocations + fuel ∧
    (retryLoop mr base maxD task jitter attempt fuel st).1.delays
      = st.delays ++ (List.range' attempt (fuel - 1)).map
          (fun k => backoffDelay base maxD k (jitter k)) := by
  intro fuel
  induction fuel with
  | zero =>
    intro attempt st _ h1
    exact absurd h1 (by omega)
  | succ f ih =>
    intro attempt st hsum _ hstate hth
    have herr := attemptStep_allowed_err mr base maxD task jitter attempt st
      msg hstate (htask st.invocations)
    cases f with
    | zero =>
      have hfinal := failAction_raise_final mr base maxD jitter attempt msg
        { st with invocations := st.invocations + 1 } (by omega)
      have hstep : retryLoop mr base maxD task jitter attempt (0 + 1) st
          = ({ st with
               invocations := st.invocations + 1,
               cb := st.cb.recordFailure st.now }, Except.error msg) := by
        rw [retryLoop_succ, herr, hfinal]
      rw [hstep]
      exact ⟨rfl, rfl, by simp⟩
    | succ f' =>
      have hcont := failAction_continue mr base maxD jitter attempt msg
        { st with invocations := st.invocations + 1 } hretry (by omega)
      have hbelow := recordFailure_closed_below st.cb st.now hstate (by omega)
      have hstep : retryLoop mr base maxD task jitter attempt (f' + 1 + 1) st
          = retryLoop mr base maxD task jitter (attempt + 1) (f' + 1)
              { st with
                invocations := st.invocations + 1,
                cb := st.cb.recordFailure st.now,
                now := st.now + backoffDelay base maxD attempt (jitter attempt),
                delays := st.delays
                  ++ [backoffDelay base maxD attempt (jitter attempt)] } := by
        rw [retryLoop_succ, herr, hcont]
      have h2 := ih (attempt + 1)
        { st with
          invocations := st.invocations + 1,
          cb := st.cb.recordFailure st.now,
          now := st.now + backoffDelay base maxD attempt (jitter attempt),
          delays := st.delays
            ++ [backoffDelay base maxD attempt (jitter attempt)] }
        (by omega) (by omega)
        (by rw [hbelow]; exact hstate)
        (by
          rw [hbelow]
          show st.cb.failures + 1 + (f' + 1) ≤ st.cb.failureThreshold
          omega)
      rw [hstep]
      refine ⟨h2.1, ?_, ?_⟩
      · rw [h2.2.1]
        show st.invocations + 1 + (f' + 1) = st.invocations + (f' + 1 + 1)
        omega
      · rw [h2.2.2]
        show (st.delays ++ [backoffDelay base maxD attempt (jitter attempt)])
            ++ (List.range' (attempt + 1) (f' + 1 - 1)).map
              (fun k => backoffDelay base maxD k (jitter k))
          = st.delays ++ (List.range' attempt (f' + 1 + 1 - 1)).map
              (fun k => backoffDelay base maxD k (jitter k))
        rw [List.append_assoc, List.singleton_append,
          show f' + 1 + 1 - 1 = (f' + 1 - 1) + 1 from by omega,
          List.range'_succ]
        rfl

theorem backoffDelay_mono (base maxD : ℚ) (jitter : ℕ → ℚ)
    (hbase : 1 ≤ base) (hjit : ∀ k, 0 ≤ jitter k ∧ jitter k < 1)
    (k l : ℕ) (hkl : k < l) :
    backoffDelay base maxD k (jitter k) ≤ backoffDelay base maxD l (jitter l) := by
  unfold backoffDelay
  refine min_le_min ?_ le_rfl
  have hpow : (2 : ℚ) ^ (k + 1) ≤ 2 ^ l := pow_le_pow_right₀ (by norm_num) hkl
  have h2k : (1 : ℚ) ≤ 2 ^ k := by
    have := pow_le_pow_right₀ (show (1:ℚ) ≤ 2 by norm_num) (Nat.zero_le k)
    simpa using this
  have hb2k : 1 ≤ base * 2 ^ k :=
    le_trans hbase (le_mul_of_one_le_right (by linarith) h2k)
  have hstep : base * 2 ^ (k + 1) ≤ base * 2 ^ l :=
    mul_le_mul_of_nonneg_left hpow (by linarith)
  have hsplit : base * 2 ^ (k + 1) = base * 2 ^ k + base * 2 ^ k := by ring
  have hj := hjit k
  have hj' := hjit l
  linarith [hj.2, hj'.1]

/-- C6: with the circuit breaker permitting every attempt (closed and far
enough from its threshold), a task that always raises a retryable error is
invoked exactly `maxRetries + 1` times before the last observed error
propagates; the backoff delays slept between consecutive attempts equal
`min(baseDelay * 2^attempt + jitter_attempt, maxDelay)` with each jitter in
`[0, 1)`, are non-decreasing across attempts (using that the executor's
`baseDelay` is at least 1 — the service deploys 2.0), and never exceed
`maxDelay`. -/
theorem c6_retry_exhaustion (mr : ℕ) (base maxD : ℚ) (task : ℕ → Outcome)
    (jitter : ℕ → ℚ) (st : ExecState) (msg : String)
    (htask : ∀ k, task k = Outcome.err msg)
    (hretry : isRetryableError msg = true)
    (hstate : st.cb.state = CBState.closed)
    (hth : st.cb.failures + (mr + 1) ≤ st.cb.failureThreshold)
    (hjit : ∀ k, 0 ≤ jitter k ∧ jitter k < 1)
    (hbase : 1 ≤ base) :
    (executeWithRetry mr base maxD task jitter st).2 = Except.error msg ∧
    (executeWithRetry mr base maxD task jitter st).1.invocations
      = st.invocations + (mr + 1) ∧
    (executeWithRetry mr base maxD task jitter st).1.delays
      = st.delays ++ (List.range mr).map
          (fun k => backoffDelay base maxD k (jitter k)) ∧
    ((List.range mr).map
        (fun k => backoffDelay base maxD k (jitter k))).Pairwise (· ≤ ·) ∧
    (∀ d ∈ (List.range mr).map
        (fun k => backoffDelay base maxD k (jitter k)), d ≤ maxD) := by
  have h := retryLoop_retryable_err mr base maxD task jitter msg htask hretry
    (mr + 1) 0 st (by omega) (by omega) hstate hth
  refine ⟨h.1, h.2.1, ?_, ?_, ?_⟩
  · rw [List.range_eq_range']
    exact h.2.2
  · exact List.Pairwise.map _
      (fun a b hab => backoffDelay_mono base maxD jitter hbase hjit a b hab)
      (List.pairwise_lt_range mr)
  · intro d hd
    simp only [List.mem_map] at hd
    obtain ⟨k, _, rfl⟩ := hd
    exact min_le_right _ _

/-- Witness for C6 at the deployed configuration: `max_retries = 3`,
`base_delay = 2`, `max_delay = 60`, a fresh breaker (threshold 10), a task
that always raises "timeout", jitter 1/2 on every attempt. -/
theorem c6_retry_exhaustion_witness :
    (executeWithRetry 3 2 60 (fun _ => Outcome.err "timeout") (fun _ => 1/2)
      { cb := CircuitBreaker.init 10 60 3, now := 0, invocations := 0,
        delays := [] }).2 = Except.error "timeout" ∧
    (executeWithRetry 3 2 60 (fun _ => Outcome.err "timeout") (fun _ => 1/2)
      { cb := CircuitBreaker.init 10 60 3, now := 0, invocations := 0,
        delays := [] }).1.invocations = 0 + (3 + 1) := by
  have h := c6_retry_exhaustion 3 2 60 (fun _ => Outcome.err "timeout")
    (fun _ => 1/2)
    { cb := CircuitBreaker.init 10 60 3, now := 0, invocations := 0,
      delays := [] }
    "timeout" (fun _ => rfl) (by decide) rfl (by decide)
    (fun _ => by norm_num) (by norm_num)
  exact ⟨h.1, h.2.1⟩

theorem recordSuccess_not_halfOpen (cb : CircuitBreaker)
    (hs : ¬ cb.state = CBState.halfOpen) :
    cb.recordSuccess = { cb with failures := 0 } := by
  unfold CircuitBreaker.recordSuccess
  simp [hs]

theorem executeWithRetry_ok (mr : ℕ) (base maxD : ℚ) (task : ℕ → Outcome)
    (jitter : ℕ → ℚ) (st : ExecState) (v : ℕ)
    (hstate : st.cb.state = CBState.closed)
    (htask : task st.invocations = Outcome.ok v) :
    executeWithRetry mr base maxD task jitter st
      = ({ st with
           invocations := st.invocations + 1,
           cb := st.cb.recordSuccess }, Except.ok v) := by
  unfold executeWithRetry
  rw [retryLoop_succ,
    attemptStep_allowed_ok mr base maxD task jitter 0 st v hstate htask]

theorem executeWithRetry_fatal (mr : ℕ) (base maxD : ℚ) (task : ℕ → Outcome)
    (jitter : ℕ → ℚ) (st : ExecState) (m : String)
    (hstate : st.cb.state = CBState.closed)
    (htask : task st.invocations = Outcome.err m)
    (hfatal : isRetryableError m = false) :
    executeWithRetry mr base maxD task jitter st
      = ({ st with
           invocations := st.invocations + 1,
           cb := st.cb.recordFailure st.now }, Except.error m) := by
  unfold executeWithRetry
  rw [retryLoop_succ,
    attemptStep_allowed_err mr base maxD task jitter 0 st m hstate htask,
    failAction_raise_fatal mr base maxD jitter 0 m
      { st with invocations := st.invocations + 1 } hfatal]

theorem processItem_ok (mr : ℕ) (base maxD : ℚ) (jitter : ℕ → ℚ)
    (proc : ℕ → Outcome) (qs : QueueState) (job : BatchJob) (item v : ℕ)
    (hstate : qs.cb.state = CBState.closed) (hproc : proc item = Outcome.ok v) :
    processItem mr base maxD jitter proc (qs, job) item
      = ({ bucket := (qs.bucket.acquire 1 qs.now).1,
           cb := { qs.cb with failures := 0 },
           now := pwlNow qs },
         updateBatchProgress job true (some v) none (some (toString item))
           (pwlNow qs)) := by
  have hexec := executeWithRetry_ok mr base maxD (fun _ => proc item) jitter
    { cb := qs.cb, now := pwlNow qs, invocations := 0, delays := [] } v
    hstate hproc
  have hsucc := recordSuccess_not_halfOpen qs.cb
    (by rw [hstate]; intro h; cases h)
  unfold pwlNow at hexec
  simp only [processItem, processWithLimit, hexec, hsucc, pwlNow]

theorem processItem_fatal (mr : ℕ) (base maxD : ℚ) (jitter : ℕ → ℚ)
    (proc : ℕ → Outcome) (qs : QueueState) (job : BatchJob) (item : ℕ)
    (m : String)
    (hstate : qs.cb.state = CBState.closed) (hproc : proc item = Outcome.err m)
    (hfatal : isRetryableError m = false) :
    processItem mr base maxD jitter proc (qs, job) item
      = ({ bucket := (qs.bucket.acquire 1 qs.now).1,
           cb := qs.cb.recordFailure (pwlNow qs),
           now := pwlNow qs },
         updateBatchProgress job false none (some m) (some (toString item))
           (pwlNow qs)) := by
  have hexec := executeWithRetry_fatal mr base maxD (fun _ => proc item) jitter
    { cb := qs.cb, now := pwlNow qs, invocations := 0, delays := [] } m
    hstate hproc hfatal
  unfold pwlNow at hexec
  simp only [processItem, processWithLimit, hexec, pwlNow]

theorem updateBatchProgress_ok_fields (j : BatchJob) (v : ℕ)
    (fn : Option String) (now : ℚ) :
    (updateBatchProgress j true (some v) none fn now).total = j.total ∧
    (updateBatchProgress j true (some v) none fn now).processed
      = j.processed + 1 ∧
    (updateBatchProgress j true (some v) none fn now).successful
      = j.successful + 1 ∧
    (updateBatchProgress j true (some v) none fn now).failed = j.failed ∧
    (updateBatchProgress j true (some v) none fn now).results
      = j.results ++ [v] ∧
    (j.processed + 1 < j.total →
      (updateBatchProgress j true (some v) none fn now).status = j.status) ∧
    (j.total ≤ j.processed + 1 →
      (updateBatchProgress j true (some v) none fn now).status
        = (if (updateBatchProgress j true (some v) none fn now).failed = 0
           then BatchStatus.completed
           else if (updateBatchProgress j true (some v) none fn now).successful
              = 0 then BatchStatus.failed
           else BatchStatus.partialDone)) := by
  by_cases hc : j.total ≤ j.processed + 1 <;>
    simp [updateBatchProgress, hc]

theorem updateBatchProgress_err_fields (j : BatchJob) (m : String)
    (fn : Option String) (now : ℚ) :
    (updateBatchProgress j false none (some m) fn now).total = j.total ∧
    (updateBatchProgress j false none (some m) fn now).processed
      = j.processed + 1 ∧
    (updateBatchProgress j false none (some m) fn now).successful
      = j.successful ∧
    (updateBatchProgress j false none (some m) fn now).failed
      = j.failed + 1 ∧
    (updateBatchProgress j false none (some m) fn now).results = j.results ∧
    (j.processed + 1 < j.total →
      (updateBatchProgress j false none (some m) fn now).status = j.status) ∧
    (j.total ≤ j.processed + 1 →
      (updateBatchProgress j false none (some m) fn now).status
        = (if (updateBatchProgress j false none (some m) fn now).failed = 0
           then BatchStatus.completed
           else if (updateBatchProgress j false none (some m) fn
              now).successful = 0 then BatchStatus.failed
           else BatchStatus.partialDone)) := by
  by_cases hc : j.total ≤ j.processed + 1 <;>
    simp [updateBatchProgress, hc]

theorem failuresAfter_append (f : ℕ) (l₁ l₂ : List Outcome) :
    failuresAfter f (l₁ ++ l₂) = failuresAfter (failuresAfter f l₁) l₂ := by
  induction l₁ generalizing f with
  | nil => rfl
  | cons o rest ih => cases o <;> simp [failuresAfter, ih]

theorem safeRun_append (th : ℕ) (l₁ l₂ : List Outcome) :
    ∀ f : ℕ, safeRun th f (l₁ ++ l₂) = true →
    safeRun th f l₁ = true ∧ safeRun th (failuresAfter f l₁) l₂ = true := by
  induction l₁ with
  | nil => intro f h; exact ⟨rfl, h⟩
  | cons o rest ih =>
    intro f h
    cases o with
    | ok v =>
      have h2 := ih 0 h
      exact ⟨h2.1, h2.2⟩
    | err m =>
      simp only [List.cons_append, safeRun, Bool.and_eq_true,
        decide_eq_true_eq] at h
      have h2 := ih (f + 1) h.2
      refine ⟨?_, h2.2⟩
      simp only [safeRun, Bool.and_eq_true, decide_eq_true_eq]
      exact ⟨h.1, h2.1⟩

/-- Folding `process_item` over items whose tasks either succeed or fail
fatally, under a closed breaker that never reaches its threshold: every item
is processed and recorded — the counters count exactly the successes and
failures, every success payload lands in `results`, the status is untouched
until `processed` reaches `total` and is then classified from the final
counters.  No item's failure prevents any later item from being recorded. -/
theorem foldl_processItem_closed (mr : ℕ) (base maxD : ℚ) (jitter : ℕ → ℚ)
    (proc : ℕ → Outcome) :
    ∀ (items : List ℕ) (qs : QueueState) (job : BatchJob),
    qs.cb.state = CBState.closed →
    (∀ i ∈ items, FatalOrOk proc i) →
    safeRun qs.cb.failureThreshold qs.cb.failures (items.map proc) = true →
    job.processed + items.length ≤ job.total →
    ((items.foldl (processItem mr base maxD jitter proc) (qs, job)).1.cb.state
        = CBState.closed) ∧
    ((items.foldl (processItem mr base maxD jitter proc)
        (qs, job)).1.cb.failureThreshold = qs.cb.failureThreshold) ∧
    ((items.foldl (processItem mr base maxD jitter proc)
        (qs, job)).1.cb.failures
      = failuresAfter qs.cb.failures (items.map proc)) ∧
    ((items.foldl (processItem mr base maxD jitter proc) (qs, job)).2.total
      = job.total) ∧
    ((items.foldl (processItem mr base maxD jitter proc)
        (qs, job)).2.processed = job.processed + items.length) ∧
    ((items.foldl (processItem mr base maxD jitter proc)
        (qs, job)).2.successful
      = job.successful + (items.map proc).countP isOk) ∧
    ((items.foldl (processItem mr base maxD jitter proc) (qs, job)).2.failed
      = job.failed + (items.map proc).countP (fun o => ! isOk o)) ∧
    ((items.foldl (processItem mr base maxD jitter proc) (qs, job)).2.results
      = job.results ++ (items.map proc).filterMap payload) ∧
    (job.processed + items.length < job.total →
      (items.foldl (processItem mr base maxD jitter proc)
          (qs, job)).2.status = job.status) ∧
    (items ≠ [] → job.processed + items.length = job.total →
      (items.foldl (processItem mr base maxD jitter proc)
          (qs, job)).2.status
        = (if (items.foldl (processItem mr base maxD jitter proc)
              (qs, job)).2.failed = 0 then BatchStatus.completed
           else if (items.foldl (processItem mr base maxD jitter proc)
              (qs, job)).2.successful = 0 then BatchStatus.failed
           else BatchStatus.partialDone)) := by
  intro items
  induction items with
  | nil =>
    intro qs job hstate _ _ _
    exact ⟨hstate, rfl, rfl, rfl, by simp, by simp, by simp, by simp,
      fun _ => rfl, fun h _ => absurd rfl h⟩
  | cons i rest ih =>
    intro qs job hstate hall hsafe hbound
    have hcls := hall i (List.mem_cons_self i rest)
    unfold FatalOrOk at hcls
    simp only [List.map_cons] at hsafe
    simp only [List.length_cons] at hbound
    cases hpi : proc i with
    | ok v =>
      rw [hpi] at hcls hsafe
      have hstep := processItem_ok mr base maxD jitter proc qs job i v
        hstate hpi
      have hupd := updateBatchProgress_ok_fields job v (some (toString i))
        (pwlNow qs)
      have ihres := ih
        { bucket := (qs.bucket.acquire 1 qs.now).1,
          cb := { qs.cb with failures := 0 },
          now := pwlNow qs }
        (updateBatchProgress job true (some v) none (some (toString i))
          (pwlNow qs))
        hstate
        (fun j hj => hall j (List.mem_cons_of_mem i hj))
        hsafe
        (by rw [hupd.2.1, hupd.1]; omega)
      simp only [List.foldl_cons, hstep, List.map_cons, hpi,
        List.length_cons]
      refine ⟨ihres.1, ihres.2.1, ihres.2.2.1, ?_, ?_, ?_, ?_, ?_, ?_, ?_⟩
      · rw [ihres.2.2.2.1, hupd.1]
      · rw [ihres.2.2.2.2.1, hupd.2.1]; omega
      · rw [ihres.2.2.2.2.2.1, hupd.2.2.1,
          List.countP_cons_of_pos isOk (rest.map proc) (by rfl)]
        omega
      · rw [ihres.2.2.2.2.2.2.1, hupd.2.2.2.1,
          List.countP_cons_of_neg (fun o => ! isOk o) (rest.map proc)
            (by simp [isOk])]
      · rw [ihres.2.2.2.2.2.2.2.1, hupd.2.2.2.2.1,
          List.filterMap_cons_some (show payload (Outcome.ok v) = some v
            from rfl)]
        simp
      · intro hlt
        rw [ihres.2.2.2.2.2.2.2.2.1 (by rw [hupd.2.1, hupd.1]; omega),
          hupd.2.2.2.2.2.1 (by omega)]
      · intro _ heq
        cases rest with
        | nil =>
          simp only [List.foldl_nil, List.length_nil] at heq ⊢
          exact hupd.2.2.2.2.2.2 (by omega)
        | cons r rs =>
          exact ihres.2.2.2.2.2.2.2.2.2 (by intro h; cases h)
            (by rw [hupd.2.1, hupd.1]; simp only [List.length_cons] at heq ⊢
                omega)
    | err m =>
      rw [hpi] at hcls hsafe
      have hfatal : isRetryableError m = false := hcls
      simp only [safeRun, Bool.and_eq_true, decide_eq_true_eq] at hsafe
      have hstep := processItem_fatal mr base maxD jitter proc qs job i m
        hstate hpi hfatal
      have hupd := updateBatchProgress_err_fields job m (some (toString i))
        (pwlNow qs)
      have hbelow := recordFailure_closed_below qs.cb (pwlNow qs) hstate
        hsafe.1
      have ihres := ih
        { bucket := (qs.bucket.acquire 1 qs.now).1,
          cb := qs.cb.recordFailure (pwlNow qs),
          now := pwlNow qs }
        (updateBatchProgress job false none (some m) (some (toString i))
          (pwlNow qs))
        (by rw [hbelow]; exact hstate)
        (fun j hj => hall j (List.mem_cons_of_mem i hj))
        (by rw [hbelow]; exact hsafe.2)
        (by rw [hupd.2.1, hupd.1]; omega)
      simp only [List.foldl_cons, hstep, List.map_cons, hpi,
        List.length_cons]
      refine ⟨ihres.1, ?_, ?_, ?_, ?_, ?_, ?_, ?_, ?_, ?_⟩
      · rw [ihres.2.1, hbelow]
      · rw [ihres.2.2.1, hbelow]
        show failuresAfter (qs.cb.failures + 1) (rest.map proc)
          = failuresAfter qs.cb.failures (Outcome.err m :: rest.map proc)
        rfl
      · rw [ihres.2.2.2.1, hupd.1]
      · rw [ihres.2.2.2.2.1, hupd.2.1]; omega
      · rw [ihres.2.2.2.2.2.1, hupd.2.2.1,
          List.countP_cons_of_neg isOk (rest.map proc) (by simp [isOk])]
      · rw [ihres.2.2.2.2.2.2.1, hupd.2.2.2.1,
          List.countP_cons_of_pos (fun o => ! isOk o) (rest.map proc)
            (by simp [isOk])]
        omega
      · rw [ihres.2.2.2.2.2.2.2.1, hupd.2.2.2.2.1,
          List.filterMap_cons_none (show payload (Outcome.err m) = none
            from rfl)]
      · intro hlt
        rw [ihres.2.2.2.2.2.2.2.2.1 (by rw [hupd.2.1, hupd.1]; omega),
          hupd.2.2.2.2.2.1 (by omega)]
      · intro _ heq
        cases rest with
        | nil =>
          simp only [List.foldl_nil, List.length_nil] at heq ⊢
          exact hupd.2.2.2.2.2.2 (by omega)
        | cons r rs =>
          exact ihres.2.2.2.2.2.2.2.2.2 (by intro h; cases h)
            (by rw [hupd.2.1, hupd.1]; simp only [List.length_cons] at heq ⊢
                omega)

theorem processBatchLoop_nil (mr : ℕ) (base maxD : ℚ) (jitter : ℕ → ℚ)
    (chunkSize : ℕ) (proc : ℕ → Outcome) (fuel : ℕ) (qs : QueueState)
    (job : BatchJob) :
    processBatchLoop mr base maxD jitter chunkSize proc fuel qs job []
      = (qs, job) := by
  cases fuel <;> rfl

theorem cb_of_interChunkSleep (s1 : QueueState) (c : Bool) :
    (if c = true then s1 else { s1 with now := s1.now + 1/10 }).cb
      = s1.cb := by
  split <;> rfl

/-- The chunk loop preserves the guarantees of `foldl_processItem_closed`
across chunk boundaries: chunking and the inter-chunk settling sleep change
only the clock, never which items get processed and recorded. -/
theorem processBatchLoop_closed (mr : ℕ) (base maxD : ℚ) (jitter : ℕ → ℚ)
    (chunkSize : ℕ) (proc : ℕ → Outcome) (hchunk : 1 ≤ chunkSize) :
    ∀ (fuel : ℕ) (items : List ℕ) (qs : QueueState) (job : BatchJob),
    items.length ≤ fuel →
    qs.cb.state = CBState.closed →
    (∀ i ∈ items, FatalOrOk proc i) →
    safeRun qs.cb.failureThreshold qs.cb.failures (items.map proc) = true →
    job.processed + items.length ≤ job.total →
    ((processBatchLoop mr base maxD jitter chunkSize proc fuel qs job
        items).1.cb.state = CBState.closed) ∧
    ((processBatchLoop mr base maxD jitter chunkSize proc fuel qs job
        items).1.cb.failureThreshold = qs.cb.failureThreshold) ∧
    ((processBatchLoop mr base maxD jitter chunkSize proc fuel qs job
        items).1.cb.failures
      = failuresAfter qs.cb.failures (items.map proc)) ∧
    ((processBatchLoop mr base maxD jitter chunkSize proc fuel qs job
        items).2.total = job.total) ∧
    ((processBatchLoop mr base maxD jitter chunkSize proc fuel qs job
        items).2.processed = job.processed + items.length) ∧
    ((processBatchLoop mr base maxD jitter chunkSize proc fuel qs job
        items).2.successful
      = job.successful + (items.map proc).countP isOk) ∧
    ((processBatchLoop mr base maxD jitter chunkSize proc fuel qs job
        items).2.failed
      = job.failed + (items.map proc).countP (fun o => ! isOk o)) ∧
    ((processBatchLoop mr base maxD jitter chunkSize proc fuel qs job
        items).2.results
      = job.results ++ (items.map proc).filterMap payload) ∧
    (job.processed + items.length < job.total →
      (processBatchLoop mr base maxD jitter chunkSize proc fuel qs job
          items).2.status = job.status) ∧
    (items ≠ [] → job.processed + items.length = job.total →
      (processBatchLoop mr base maxD jitter chunkSize proc fuel qs job
          items).2.status
        = (if (processBatchLoop mr base maxD jitter chunkSize proc fuel qs
              job items).2.failed = 0 then BatchStatus.completed
           else if (processBatchLoop mr base maxD jitter chunkSize proc fuel
              qs job items).2.successful = 0 then BatchStatus.failed
           else BatchStatus.partialDone)) := by
  intro fuel
  induction fuel with
  | zero =>
    intro items qs job hlen hstate hall hsafe hbound
    have hnil : items = [] := List.eq_nil_of_length_eq_zero (by omega)
    subst hnil
    rw [processBatchLoop_nil]
    exact ⟨hstate, rfl, rfl, rfl, by simp, by simp, by simp, by simp,
      fun _ => rfl, fun h _ => absurd rfl h⟩
  | succ f ih =>
    intro items qs job hlen hstate hall hsafe hbound
    cases items with
    | nil =>
      rw [processBatchLoop_nil]
      exact ⟨hstate, rfl, rfl, rfl, by simp, by simp, by simp, by simp,
        fun _ => rfl, fun h _ => absurd rfl h⟩
    | cons i its =>
      have hsplit : (i :: its).map proc
          = ((i :: its).take chunkSize).map proc
            ++ ((i :: its).drop chunkSize).map proc := by
        rw [← List.map_append, List.take_append_drop]
      have hsafes := safeRun_append qs.cb.failureThreshold
        (((i :: its).take chunkSize).map proc)
        (((i :: its).drop chunkSize).map proc)
        qs.cb.failures (by rw [← hsplit]; exact hsafe)
      have hctake : ((i :: its).take chunkSize).length
          = min chunkSize (i :: its).length := List.length_take chunkSize _
      have hcdrop : ((i :: its).drop chunkSize).length
          = (i :: its).length - chunkSize := List.length_drop chunkSize _
      have hfold := foldl_processItem_closed mr base maxD jitter proc
        ((i :: its).take chunkSize) qs job hstate
        (fun j hj => hall j (List.take_subset chunkSize (i :: its) hj))
        hsafes.1
        (by rw [hctake]; simp only [List.length_cons] at hbound ⊢; omega)
      have hloop : processBatchLoop mr base maxD jitter chunkSize proc
            (f + 1) qs job (i :: its)
          = processBatchLoop mr base maxD jitter chunkSize proc f
              (if ((i :: its).drop chunkSize).isEmpty then
                (((i :: its).take chunkSize).foldl
                  (processItem mr base maxD jitter proc) (qs, job)).1
               else
                { (((i :: its).take chunkSize).foldl
                    (processItem mr base maxD jitter proc) (qs, job)).1 with
                  now := (((i :: its).take chunkSize).foldl
                    (processItem mr base maxD jitter proc) (qs, job)).1.now
                      + 1/10 })
              (((i :: its).take chunkSize).foldl
                (processItem mr base maxD jitter proc) (qs, job)).2
              ((i :: its).drop chunkSize) := rfl
      cases hrest : (i :: its).drop chunkSize with
      | nil =>
        have hchunkall : (i :: its).take chunkSize = i :: its :=
          List.take_of_length_le (List.drop_eq_nil_iff.mp hrest)
        rw [hrest] at hloop
        rw [hchunkall] at hloop hfold
        rw [hloop, processBatchLoop_nil]
        have hcb : ((if ([] : List ℕ).isEmpty then
              ((i :: its).foldl (processItem mr base maxD jitter proc)
                (qs, job)).1
            else
              { ((i :: its).foldl (processItem mr base maxD jitter proc)
                  (qs, job)).1 with
                now := ((i :: its).foldl (processItem mr base maxD jitter
                  proc) (qs, job)).1.now + 1/10 }) : QueueState).cb
            = ((i :: its).foldl (processItem mr base maxD jitter proc)
                (qs, job)).1.cb := rfl
        rw [hcb]
        exact hfold
      | cons r rs =>
        rw [hrest] at hloop hsafes hcdrop
        rw [hloop]
        have hcb : ((if (r :: rs).isEmpty then
              (((i :: its).take chunkSize).foldl
                (processItem mr base maxD jitter proc) (qs, job)).1
            else
              { (((i :: its).take chunkSize).foldl
                  (processItem mr base maxD jitter proc) (qs, job)).1 with
                now := (((i :: its).take chunkSize).foldl
                  (processItem mr base maxD jitter proc) (qs, job)).1.now
                    + 1/10 }) : QueueState).cb
            = (((i :: its).take chunkSize).foldl
                (processItem mr base maxD jitter proc) (qs, job)).1.cb := rfl
        have hihres := ih (r :: rs)
          (if (r :: rs).isEmpty then
              (((i :: its).take chunkSize).foldl
                (processItem mr base maxD jitter proc) (qs, job)).1
            else
              { (((i :: its).take chunkSize).foldl
                  (processItem mr base maxD jitter proc) (qs, job)).1 with
                now := (((i :: its).take chunkSize).foldl
                  (processItem mr base maxD jitter proc) (qs, job)).1.now
                    + 1/10 })
          (((i :: its).take chunkSize).foldl
            (processItem mr base maxD jitter proc) (qs, job)).2
          (by
            rw [hcdrop]
            simp only [List.length_cons] at hlen ⊢
            omega)
          (by rw [hcb]; exact hfold.1)
          (fun j hj => hall j (by
            rw [← hrest] at hj
            exact List.drop_subset chunkSize (i :: its) hj))
          (by
            rw [hcb, hfold.2.1, hfold.2.2.1]
            exact hsafes.2)
          (by
            rw [hfold.2.2.2.2.1, hfold.2.2.2.1, hcdrop, hctake]
            simp only [List.length_cons] at hbound ⊢
            omega)
        refine ⟨hihres.1, ?_, ?_, ?_, ?_, ?_, ?_, ?_, ?_, ?_⟩
        · rw [hihres.2.1, hcb, hfold.2.1]
        · rw [hihres.2.2.1, hcb, hfold.2.2.1, hsplit, hrest,
            failuresAfter_append]
        · rw [hihres.2.2.2.1, hfold.2.2.2.1]
        · rw [hihres.2.2.2.2.1, hfold.2.2.2.2.1, hctake, hcdrop]
          simp only [List.length_cons] at hbound ⊢
          omega
        · rw [hihres.2.2.2.2.2.1, hfold.2.2.2.2.2.1, hsplit, hrest,
            List.countP_append]
          omega
        · rw [hihres.2.2.2.2.2.2.1, hfold.2.2.2.2.2.2.1, hsplit, hrest,
            List.countP_append]
          omega
        · rw [hihres.2.2.2.2.2.2.2.1, hfold.2.2.2.2.2.2.2.1, hsplit, hrest,
            List.filterMap_append, List.append_assoc]
        · intro hlt
          rw [hihres.2.2.2.2.2.2.2.2.1, hfold.2.2.2.2.2.2.2.2.1]
          · rw [hctake]
            simp only [List.length_cons] at hlt ⊢
            have hlen2 : (r :: rs).length = its.length + 1 - chunkSize := by
              rw [hcdrop]; simp
            omega
          · rw [hfold.2.2.2.2.1, hfold.2.2.2.1, hctake]
            simp only [List.length_cons] at hlt ⊢
            have hlen2 : rs.length + 1 = its.length + 1 - chunkSize := by
              have h3 := hcdrop
              simp only [List.length_cons] at h3
              omega
            omega
        · intro _ heq
          refine hihres.2.2.2.2.2.2.2.2.2 (by intro h; cases h) ?_
          rw [hfold.2.2.2.2.1, hfold.2.2.2.1, hctake]
          simp only [List.length_cons] at heq ⊢
          have hlen2 : rs.length + 1 = its.length + 1 - chunkSize := by
            have h3 := hcdrop
            simp only [List.length_cons] at h3
            omega
          omega

/-- C1: failure isolation in `process_batch` — in a batch of twelve items
where every third item's task always raises a fatal (non-retryable) error
and every other item's task succeeds, the job ends in status `partial` with
`successful = 8`, `failed = 4`, all twelve items processed, and all eight
successful payloads present in the job's results; no item's failure prevents
any sibling item, in the same chunk or the following one, from being
processed and recorded. -/
theorem c1_failure_isolation :
    isolationRun.2.status = BatchStatus.partialDone ∧
    isolationRun.2.successful = 8 ∧
    isolationRun.2.failed = 4 ∧
    isolationRun.2.processed = 12 ∧
    isolationRun.2.results = [0, 1, 3, 4, 6, 7, 9, 10] := by
  have hres := processBatchLoop_closed 3 2 60 (fun _ => 0) 10 everyThirdFatal
    (by decide) 12 (List.range 12) (initialQueueState 0) (createBatchJob 12 0)
    (by decide) rfl (by decide) (by decide) (by decide)
  have hrun : isolationRun
      = processBatchLoop 3 2 60 (fun _ => 0) 10 everyThirdFatal 12
          (initialQueueState 0) (createBatchJob 12 0) (List.range 12) := rfl
  have hsucc : (processBatchLoop 3 2 60 (fun _ => 0) 10 everyThirdFatal 12
      (initialQueueState 0) (createBatchJob 12 0)
      (List.range 12)).2.successful = 8 := by
    rw [hres.2.2.2.2.2.1]; decide
  have hfailed : (processBatchLoop 3 2 60 (fun _ => 0) 10 everyThirdFatal 12
      (initialQueueState 0) (createBatchJob 12 0)
      (List.range 12)).2.failed = 4 := by
    rw [hres.2.2.2.2.2.2.1]; decide
  have hstat := hres.2.2.2.2.2.2.2.2.2 (by decide) (by decide)
  rw [hsucc, hfailed] at hstat
  refine ⟨?_, ?_, ?_, ?_, ?_⟩
  · rw [hrun, hstat, if_neg (by decide), if_neg (by decide)]
  · rw [hrun]; exact hsucc
  · rw [hrun]; exact hfailed
  · rw [hrun, hres.2.2.2.2.1]; decide
  · rw [hrun, hres.2.2.2.2.2.2.2.1]; decide

end BiodataQueue
